import Mathlib

/-!
Shallow embedding of the veriq dependency-aware evaluation engine
(`src/veriq/_path.py`, `_table.py`, `_models.py`, `_build.py`, `_eval.py`)
and proofs about its specified properties.

Python machine details that the embedding relies on (checkable against the
language semantics, not simplifications):
* `StrEnum` members are `str` instances: they compare and hash equal to their
  plain string value.
* A parametrized generic such as `Table[Option, float]` is a
  `types.GenericAlias`; `inspect.isclass` returns `False` on it and
  `isinstance(x, type)` is `False` as well.
* `f"[{key}]"` applied to a tuple of strings renders Python's tuple
  stringification, e.g. `[('a', 'b')]`.
-/

namespace Veriq

/-! ## Path data model (`_path.py`) -/

/-- The key of an `ItemPart`: `str | tuple[str, ...]`. -/
inductive ItemKey
  | s (k : String)
  | t (ks : List String)
deriving DecidableEq, Repr

/-- A path part: `AttributePart(name)` or `ItemPart(key)`. -/
inductive Part
  | attr (name : String)
  | item (key : ItemKey)
deriving DecidableEq, Repr

/-- The three path sub-kinds.  `ModelPath` stores no root because its
`__post_init__` forces the root to be exactly `"$"`; `VerificationPath`
stores no parts because its `__post_init__` forces them empty. -/
inductive TypedPath
  | modelP (parts : List Part)
  | calcP (root : String) (parts : List Part)
  | verifP (root : String)
deriving DecidableEq, Repr

/-- `ProjectPath(scope, path)`. -/
structure PPath where
  scope : String
  path : TypedPath
deriving DecidableEq, Repr

/-- Characters at which root extraction and attribute scanning stop:
`'.'` and `'['`. -/
def isStopChar (c : Char) : Bool := c == '.' || c == '['

/-- Python `str.strip()` on a character list (whitespace removed from both
ends). -/
def stripChars (l : List Char) : List Char :=
  ((l.dropWhile Char.isWhitespace).reverse.dropWhile Char.isWhitespace).reverse

/-- Python `str.strip()`. -/
def pyStrip (s : String) : String := String.mk (stripChars s.data)

/-- Distinct `raise` sites of the path-parsing code (each raises a
`ValueError`, the `ErrPathSyntax` of the spec's taxonomy). -/
inductive PathError
  | unknownRootSigil
  | unexpectedChar
  | modelRootMismatch
  | calcRootMismatch
  | verifRootMismatch
  | verifPartsNonEmpty
deriving DecidableEq, Repr

/-- Bracket contents to an `ItemPart`: if the key string contains a comma it
is split on commas into a tuple with each piece stripped, otherwise it is a
single stripped key (`Path.parse`, `_path.py:82-87`). -/
def mkItemPart (keyStr : List Char) : Part :=
  if keyStr.contains ',' then
    Part.item (ItemKey.t ((keyStr.splitOn ',').map (fun k => String.mk (stripChars k))))
  else
    Part.item (ItemKey.s (String.mk (stripChars keyStr)))

/-- The part-scanning loop of `Path.parse` (`_path.py:67-91`).  The loop is
driven by a character index; here the remaining characters are consumed
directly, with `fuel` bounding the number of parts (each iteration consumes
at least one character, so `fuel ≥ length` suffices).
* `'.'`: the following run of non-stop characters is an attribute name.
* `'['`: characters up to `']'` (or the end of the string, when the bracket
  is unclosed) form the key; the closing bracket, if present, is skipped.
* any other character: `ValueError` (`Unexpected character`). -/
def parsePartsAux : Nat → List Char → Except PathError (List Part)
  | _, [] => .ok []
  | 0, _ :: _ => .error .unexpectedChar
  | fuel + 1, c :: rest =>
    if c == '.' then
      let name := rest.takeWhile (fun ch => !isStopChar ch)
      let rest1 := rest.dropWhile (fun ch => !isStopChar ch)
      (parsePartsAux fuel rest1).map (fun ps => Part.attr (String.mk name) :: ps)
    else if c == '[' then
      let key := rest.takeWhile (fun ch => ch != ']')
      let rest1 := (rest.dropWhile (fun ch => ch != ']')).drop 1
      (parsePartsAux fuel rest1).map (fun ps => mkItemPart key :: ps)
    else .error .unexpectedChar

/-- Root extraction of `Path.parse` (`_path.py:54-63`): the source partitions
at the first `'.'` and at the first `'['` and keeps the shorter prefix, which
is exactly the prefix before the earliest stop character; when neither
occurs the whole string is the root and there are no parts. -/
def rootSplit (s : List Char) : Option (List Char × List Char) :=
  if s.any isStopChar then
    some (s.takeWhile (fun c => !isStopChar c), s.dropWhile (fun c => !isStopChar c))
  else none

/-- `Path.parse` up to (root, parts), before the sub-kind checks.  The
argument is stripped first (`_path.py:51`). -/
def pathParseRaw (s : String) : Except PathError (String × List Part) :=
  let l := stripChars s.data
  match rootSplit l with
  | none => .ok (String.mk l, [])
  | some (root, rest) =>
    (parsePartsAux rest.length rest).map (fun ps => (String.mk root, ps))

/-- `str.startswith` with a one-character prefix: the first character
matches. -/
def strStartsWith1 (s : String) (c : Char) : Bool :=
  match s.data with
  | [] => false
  | c2 :: _ => c2 == c

/-- `ModelPath.__post_init__`: root must be exactly `"$"`. -/
def mkModelPath (root : String) (parts : List Part) : Except PathError TypedPath :=
  if root = "$" then .ok (.modelP parts) else .error .modelRootMismatch

/-- `CalcPath.__post_init__`: root must start with `"@"`. -/
def mkCalcPath (root : String) (parts : List Part) : Except PathError TypedPath :=
  if strStartsWith1 root '@' then .ok (.calcP root parts) else .error .calcRootMismatch

/-- `VerificationPath.__post_init__`: root must start with `"?"` and the
parts must be empty. -/
def mkVerifPath (root : String) (parts : List Part) : Except PathError TypedPath :=
  if !strStartsWith1 root '?' then .error .verifRootMismatch
  else if parts.isEmpty then .ok (.verifP root) else .error .verifPartsNonEmpty

/-- `parse_path` (`_path.py:146-155`): strip, dispatch on
`startswith("$")` / `startswith("@")` / `startswith("?")`, parse with the
corresponding sub-kind's checks; an unknown leading sigil is an error. -/
def parsePath (pathStr : String) : Except PathError TypedPath :=
  let s := pyStrip pathStr
  if strStartsWith1 s '$' then (pathParseRaw s).bind (fun rp => mkModelPath rp.1 rp.2)
  else if strStartsWith1 s '@' then (pathParseRaw s).bind (fun rp => mkCalcPath rp.1 rp.2)
  else if strStartsWith1 s '?' then (pathParseRaw s).bind (fun rp => mkVerifPath rp.1 rp.2)
  else .error .unknownRootSigil

/-- Python `repr` of a plain string (no escapes needed for the keys handled
here). -/
def pyQuote (s : String) : String := "'" ++ s ++ "'"

/-- What `f"[{key}]"` interpolates for the key (`Path.__str__`,
`_path.py:42-43`): a single key renders as itself, a tuple renders with
Python's tuple stringification, quoting each element. -/
def itemKeyStr : ItemKey → String
  | .s k => k
  | .t ks =>
    match ks with
    | [k] => "(" ++ pyQuote k ++ ",)"
    | _ => "(" ++ String.intercalate ", " (ks.map pyQuote) ++ ")"

/-- One part of `Path.__str__`. -/
def partStr : Part → String
  | .attr n => "." ++ n
  | .item k => "[" ++ itemKeyStr k ++ "]"

/-- The root string of a typed path. -/
def pathRoot : TypedPath → String
  | .modelP _ => "$"
  | .calcP r _ => r
  | .verifP r => r

/-- The parts of a typed path. -/
def pathParts : TypedPath → List Part
  | .modelP ps => ps
  | .calcP _ ps => ps
  | .verifP _ => []

/-- `Path.__str__` (`_path.py:36-47`): the root followed by the rendering of
each part, accumulated left to right. -/
def pathStr (p : TypedPath) : String :=
  (pathParts p).foldl (fun acc part => acc ++ partStr part) (pathRoot p)

/-! ## Keys, values and the exhaustive Table (`_table.py`) -/

/-- A closed `StrEnum` type: a name and the ordered list of member values. -/
structure EnumTy where
  name : String
  members : List String
deriving DecidableEq, Repr

/-- The runtime type of a non-tuple key object. -/
inductive PyKeyTy
  | strEnum (e : EnumTy)
  | plainStr
  | otherTy (n : String)
deriving DecidableEq, Repr

/-- A non-tuple key object: its runtime type and, for string-like keys, the
underlying string value (a `StrEnum` member IS a `str` carrying its value). -/
structure SKey where
  ty : PyKeyTy
  val : String
deriving DecidableEq, Repr

/-- A table key: a single key object or a tuple of key objects. -/
inductive TblKey
  | single (k : SKey)
  | tup (ks : List SKey)
deriving DecidableEq, Repr

/-- Whether a key object is a `str` instance (plain strings and `StrEnum`
members both are). -/
def sKeyIsStr (k : SKey) : Bool :=
  match k.ty with
  | .strEnum _ => true
  | .plainStr => true
  | .otherTy _ => false

/-- Python `==` on key objects: string-like keys compare by their string
value (`StrEnum` members equal their plain value), other keys by type and
payload. -/
def sKeyEq (a b : SKey) : Bool :=
  if sKeyIsStr a && sKeyIsStr b then a.val == b.val
  else a.ty == b.ty && a.val == b.val

/-- Python `==` on table keys (tuples compare componentwise). -/
def tblKeyEq : TblKey → TblKey → Bool
  | .single a, .single b => sKeyEq a b
  | .tup as, .tup bs => as.length == bs.length && (as.zip bs).all (fun p => sKeyEq p.1 p.2)
  | _, _ => false

mutual
/-- A runtime value.  Scalars are abstracted to integers, strings and
booleans; `table` is a `Table` instance (a dict), `recV` a pydantic model
instance with its fields in declaration order. -/
inductive Val
  | num (n : Int)
  | vstr (s : String)
  | vbool (b : Bool)
  | vnone
  | table (entries : ValEntries)
  | recV (fields : ValFields)

/-- Entries of a table value, keyed by `TblKey`. -/
inductive ValEntries
  | nil
  | cons (k : TblKey) (v : Val) (rest : ValEntries)

/-- Fields of a record value. -/
inductive ValFields
  | nil
  | cons (name : String) (v : Val) (rest : ValFields)
end

mutual
def valBEq : Val → Val → Bool
  | .num a, .num b => a == b
  | .vstr a, .vstr b => a == b
  | .vbool a, .vbool b => a == b
  | .vnone, .vnone => true
  | .table a, .table b => valEntriesBEq a b
  | .recV a, .recV b => valFieldsBEq a b
  | _, _ => false

def valEntriesBEq : ValEntries → ValEntries → Bool
  | .nil, .nil => true
  | .cons k v r, .cons k2 v2 r2 => k == k2 && valBEq v v2 && valEntriesBEq r r2
  | _, _ => false

def valFieldsBEq : ValFields → ValFields → Bool
  | .nil, .nil => true
  | .cons n v r, .cons n2 v2 r2 => n == n2 && valBEq v v2 && valFieldsBEq r r2
  | _, _ => false
end

/-- List view of table entries. -/
def ValEntries.toList : ValEntries → List (TblKey × Val)
  | .nil => []
  | .cons k v rest => (k, v) :: rest.toList

/-- Table entries from a list. -/
def ValEntries.ofList : List (TblKey × Val) → ValEntries
  | [] => .nil
  | (k, v) :: rest => .cons k v (ofList rest)

/-- List view of record fields. -/
def ValFields.toList : ValFields → List (String × Val)
  | .nil => []
  | .cons n v rest => (n, v) :: rest.toList

/-- Record fields from a list. -/
def ValFields.ofList : List (String × Val) → ValFields
  | [] => .nil
  | (n, v) :: rest => .cons n v (ofList rest)

/-- `dict.__setitem__` on a table mapping: when an equal key is present its
value is replaced and the originally stored key object kept, otherwise the
pair is appended (CPython dict semantics). -/
def pyDictSetK (m : List (TblKey × Val)) (k : TblKey) (v : Val) : List (TblKey × Val) :=
  match m with
  | [] => [(k, v)]
  | e :: rest => if tblKeyEq e.1 k then (e.1, v) :: rest else e :: pyDictSetK rest k v

/-- `dict(iterable)`: insert the pairs left to right. -/
def pyDictOfList (l : List (TblKey × Val)) : List (TblKey × Val) :=
  l.foldl (fun m e => pyDictSetK m e.1 e.2) []

/-- `dict.__getitem__` lookup by Python key equality. -/
def pyDictFind (m : List (TblKey × Val)) (k : TblKey) : Option Val :=
  (m.find? (fun e => tblKeyEq e.1 k)).map (fun e => e.2)

/-- `dict.__delitem__` / `dict.pop`: remove the first equal key.  These
mutators are inherited by `Table` from `dict`; `_table.py` overrides none of
them. -/
def pyDictDelK (m : List (TblKey × Val)) (k : TblKey) : List (TblKey × Val) :=
  match m with
  | [] => []
  | e :: rest => if tblKeyEq e.1 k then rest else e :: pyDictDelK rest k

/-- Whether `k` is a key of the mapping, under Python key equality
(`k in d`). -/
def pyDictHasKey (m : List (TblKey × Val)) (k : TblKey) : Bool :=
  m.any (fun e => tblKeyEq e.1 k)

/-- The `raise` sites of `Table.__init__` (`ValueError` / `TypeError`; the
spec's `ErrTable`). -/
inductive TblErr
  | emptyTable
  | keyTypeError
  | missingKeys
  | disallowedKeys
deriving DecidableEq, Repr

/-- `itertools.product`, leftmost component varying slowest. -/
def listProd : List (List SKey) → List (List SKey)
  | [] => [[]]
  | xs :: rest => xs.flatMap (fun x => (listProd rest).map (fun t => x :: t))

/-- Expected keys derived from the sample key (`_table.py:33-51`): for a
tuple sample each component's type must be a `StrEnum` subclass and the
expected keys are the Cartesian product of the component enums' members;
for a non-tuple sample its type must be a `StrEnum` subclass and the
expected keys are that enum's members.  Only the SAMPLE key (the first key
of the mapping) is type-checked. -/
def expectedKeysOfSample : TblKey → Except TblErr (List TblKey)
  | .tup ks =>
    if ks.all (fun k => match k.ty with | .strEnum _ => true | _ => false) then
      .ok ((listProd (ks.map (fun k =>
        match k.ty with
        | .strEnum e => e.members.map (fun m => SKey.mk (.strEnum e) m)
        | _ => []))).map TblKey.tup)
    else .error .keyTypeError
  | .single k =>
    match k.ty with
    | .strEnum e => .ok (e.members.map (fun m => TblKey.single (SKey.mk (.strEnum e) m)))
    | _ => .error .keyTypeError

/-- The validation body of `Table.__init__` (`_table.py:28-66`), applied to
the already-built dict: reject empty input, derive the expected keys from
the first key, reject missing expected keys and keys outside the expected
set (set operations use Python key equality), and otherwise store the
mapping. -/
def tableChecks (mapping : List (TblKey × Val)) : Except TblErr (List (TblKey × Val)) :=
  match mapping with
  | [] => .error .emptyTable
  | sample :: restd =>
    match expectedKeysOfSample sample.1 with
    | .error err => .error err
    | .ok expected =>
      let mappingKeys := (sample :: restd).map (fun e => e.1)
      let missing := expected.filter (fun ek => !(mappingKeys.any (fun k => tblKeyEq k ek)))
      if !missing.isEmpty then .error .missingKeys
      else
        let disallowed := mappingKeys.filter (fun k => !(expected.any (fun ek => tblKeyEq k ek)))
        if !disallowed.isEmpty then .error .disallowedKeys
        else .ok (sample :: restd)

/-- `Table.__init__` (`_table.py:25-66`): `mapping = dict(...)`, then the
validation body. -/
def tableInit (entries : List (TblKey × Val)) : Except TblErr (List (TblKey × Val)) :=
  tableChecks (pyDictOfList entries)

/-- Two key lists denote the same Python set (mutual membership under
Python key equality). -/
def keySetEquiv (a b : List TblKey) : Bool :=
  a.all (fun k => b.any (fun k2 => tblKeyEq k k2)) &&
  b.all (fun k => a.any (fun k2 => tblKeyEq k2 k))

/-! ## Schemas and the schema walker (`_path.py:167-198`) -/

mutual
/-- A type annotation object as the schema walker sees it.
* `scalarCls`: a class that subclasses neither `Table` nor `BaseModel`
  (`float`, `bool`, `str`, ...).
* `enumCls`: a `StrEnum` subclass (a class).
* `noneTy`: the `None` annotation (not a class).
* `tableAlias`: a parametrized `Table[K, V]`; at runtime this is a
  `types.GenericAlias`, for which `inspect.isclass` returns `False`.
* `tableCls`: an actual class subclassing `Table`, with its expected keys.
* `modelCls`: a pydantic `BaseModel` subclass with its fields in
  declaration order. -/
inductive Ty
  | scalarCls (name : String)
  | enumCls (e : EnumTy)
  | noneTy
  | tableAlias (kTy : Ty) (vTy : Ty)
  | tableCls (keys : List String)
  | modelCls (name : String) (fields : Fields)

/-- The `model_fields` of a `BaseModel` subclass (name and annotation, in
declaration order). -/
inductive Fields
  | nil
  | cons (name : String) (ty : Ty) (rest : Fields)
end

/-- `inspect.isclass` on an annotation object. -/
def tyIsClass : Ty → Bool
  | .scalarCls _ => true
  | .enumCls _ => true
  | .noneTy => false
  | .tableAlias _ _ => false
  | .tableCls _ => true
  | .modelCls _ _ => true

/-- Whether the annotation is the `None` annotation. -/
def tyIsNone : Ty → Bool
  | .noneTy => true
  | _ => false

/-- The distinct runtime errors raised by the schema walker / accessor /
hydration / evaluator code. -/
inductive EvalErr
  | keyError (msg : String)
  | attributeError (msg : String)
  | typeError (msg : String)
  | valueError (msg : String)
  | runtimeError (msg : String)
  | indexError (msg : String)
  | tableError (e : TblErr)
  | cycleError
deriving DecidableEq, Repr

mutual
/-- `iter_leaf_path_parts` (`_path.py:167-198`):
* not a class (this includes every parametrized `Table[K, V]` annotation,
  which is a `types.GenericAlias`): the current part-list is itself a leaf;
* a class subclassing `Table`: the source iterates `model.expected_keys`,
  but `expected_keys` is an instance `@property` (`_table.py:20-23`), so on
  a class the attribute access yields the property object itself and the
  `for` loop over it raises `TypeError`;
* a class not subclassing `BaseModel`: the current part-list is a leaf;
* a `BaseModel` subclass: recurse through the fields in declaration order,
  skipping `None`-typed fields.
The source is a generator; its consumers all drain it inside computations
whose partial state dies with a propagated exception, so the eager
error-or-list result is observationally equivalent. -/
def iterLeafPathParts (ty : Ty) (cur : List Part) : Except EvalErr (List (List Part)) :=
  match ty with
  | .noneTy => .ok [cur]
  | .tableAlias _ _ => .ok [cur]
  | .tableCls _ => .error (.typeError "'property' object is not iterable")
  | .scalarCls _ => .ok [cur]
  | .enumCls _ => .ok [cur]
  | .modelCls _ fields => iterLeafFields fields cur

/-- The field loop of `iter_leaf_path_parts`: `None`-typed fields are
skipped; the leaves of the remaining fields are concatenated in
declaration order, the first failing field propagating its error. -/
def iterLeafFields (fields : Fields) (cur : List Part) : Except EvalErr (List (List Part)) :=
  match fields with
  | .nil => .ok []
  | .cons name fty rest =>
    if tyIsNone fty then iterLeafFields rest cur
    else
      match iterLeafPathParts fty (cur ++ [Part.attr name]) with
      | .error e => .error e
      | .ok leaves =>
        match iterLeafFields rest cur with
        | .error e => .error e
        | .ok more => .ok (leaves ++ more)
end

/-! ## Value access and hydration (`_path.py:201-273`) -/

/-- Lookup of a record field (`getattr`). -/
def valFieldsLookup : ValFields → String → Option Val
  | .nil, _ => none
  | .cons n v rest, name => if n == name then some v else valFieldsLookup rest name

/-- Subscripting a table value with an `ItemPart` key: the part's key is a
plain string (or tuple of strings); under Python equality it matches stored
string-like keys with the same value. -/
def itemKeyMatches (ik : ItemKey) (tk : TblKey) : Bool :=
  match ik, tk with
  | .s k, .single sk => sKeyIsStr sk && sk.val == k
  | .t ks, .tup sks =>
    ks.length == sks.length &&
    (ks.zip sks).all (fun p => sKeyIsStr p.2 && p.2.val == p.1)
  | _, _ => false

/-- Table subscript lookup. -/
def valTableLookup : ValEntries → ItemKey → Option Val
  | .nil, _ => none
  | .cons k v rest, ik => if itemKeyMatches ik k then some v else valTableLookup rest ik

/-- `get_value_by_parts` (`_path.py:201-212`): walk the parts; an
`AttributePart` is `getattr`, an `ItemPart` is a mapping subscript. -/
def getValueByParts (data : Val) (parts : List Part) : Except EvalErr Val :=
  parts.foldlM
    (fun cur part =>
      match part with
      | .attr n =>
        match cur with
        | .recV fields =>
          match valFieldsLookup fields n with
          | some v => .ok v
          | none => .error (.attributeError n)
        | _ => .error (.attributeError n)
      | .item k =>
        match cur with
        | .table entries =>
          match valTableLookup entries k with
          | some v => .ok v
          | none => .error (.keyError "item access")
        | _ => .error (.typeError "not subscriptable"))
    data

/-- Keys of an `ItemPart` as table-key objects: they are plain strings (or
tuples of plain strings), not enum members. -/
def itemKeyToTblKey : ItemKey → TblKey
  | .s k => .single ⟨.plainStr, k⟩
  | .t ks => .tup (ks.map (fun k => SKey.mk .plainStr k))

/-- The `matching_leaf_parts` comprehension of
`hydrate_value_by_leaf_values` (`_path.py:242-246`): the leaf values whose
first part is the field's `AttributePart`. -/
def matchingLeafParts (fieldName : String) (leafValues : List (List Part × Val)) :
    List (List Part × Val) :=
  leafValues.filter
    (fun lv =>
      match lv.1 with
      | Part.attr m :: _ => m == fieldName
      | _ => false)

/-- Error-propagating collection of one field value onto the remaining
field values, in declaration order (the loop body of
`hydrate_value_by_leaf_values`; the first failing field propagates). -/
def exceptFieldCons (fieldName : String) (fv : Except EvalErr Val)
    (rest : Except EvalErr (List (String × Val))) : Except EvalErr (List (String × Val)) :=
  match fv with
  | .error e => .error e
  | .ok v =>
    match rest with
    | .error e => .error e
    | .ok vs => .ok ((fieldName, v) :: vs)

/-- The per-field valuation of `hydrate_value_by_leaf_values`
(`_path.py:250-269`) for non-record fields.  The source first evaluates
`issubclass(field_type, BaseModel)`, which raises `TypeError` when the
field annotation is not a class (a parametrized `Table[K, V]` alias or
`None`); a `Table` subclass field builds the mapping from each matching
part-list's second part (index `1`; shorter part-lists raise `IndexError`);
anything else requires exactly one matching leaf whose part-list has length
one.  (Record fields are dispatched by the caller and never reach the
`modelCls` arm.) -/
def hydrateFieldScalarOrTable (fieldName : String) (fieldType : Ty)
    (leafValues : List (List Part × Val)) : Except EvalErr Val :=
  match fieldType with
  | .tableAlias _ _ => .error (.typeError "issubclass argument must be a class")
  | .noneTy => .error (.typeError "issubclass argument must be a class")
  | .modelCls _ _ => .error (.typeError "unreachable: record fields are dispatched by the caller")
  | .tableCls _ =>
    match (matchingLeafParts fieldName leafValues).mapM
        (fun lv =>
          match lv.1 with
          | _ :: Part.item k :: _ => Except.ok (itemKeyToTblKey k, lv.2)
          | _ :: Part.attr _ :: _ =>
            Except.error (EvalErr.typeError "Expected ItemPart for Table key")
          | _ => Except.error (EvalErr.indexError "parts")) with
    | .error e => .error e
    | .ok entries =>
      match tableInit entries with
      | .error e => .error (.tableError e)
      | .ok mapping => .ok (.table (ValEntries.ofList mapping))
  | _ =>
    match matchingLeafParts fieldName leafValues with
    | [m] =>
      if m.1.length == 1 then .ok m.2
      else .error (.valueError "Expected single leaf part")
    | _ => .error (.valueError "Expected single leaf part")

mutual
/-- `hydrate_value_by_leaf_values` (`_path.py:215-273`).
* target is a class subclassing `Table`: take each part-list's first part,
  which must be an `ItemPart` (empty part-lists raise `IndexError`), build
  the key-to-value mapping and call the `Table` constructor on it (the keys
  are plain strings, so the constructor's sample-type check applies to a
  `str`);
* target is not a class or not a `BaseModel` subclass: there must be exactly
  one leaf value, under the empty part-list, and it is returned as is;
* target is a `BaseModel` subclass: hydrate each non-`None` field from the
  leaf values whose first part is that field's `AttributePart`, then
  construct the model from the field values in declaration order. -/
def hydrateValueByLeafValues (ty : Ty) (leafValues : List (List Part × Val)) :
    Except EvalErr Val :=
  match ty with
  | .tableCls _ =>
    match leafValues.mapM
        (fun lv =>
          match lv.1 with
          | Part.item k :: _ => Except.ok (itemKeyToTblKey k, lv.2)
          | Part.attr _ :: _ => Except.error (EvalErr.typeError "Expected ItemPart for Table key")
          | [] => Except.error (EvalErr.indexError "parts")) with
    | .error e => .error e
    | .ok entries =>
      match tableInit entries with
      | .error e => .error (.tableError e)
      | .ok mapping => .ok (.table (ValEntries.ofList mapping))
  | .modelCls _name fields =>
    match hydrateFieldVals fields leafValues with
    | .error e => .error e
    | .ok fvs => .ok (.recV (ValFields.ofList fvs))
  | _ =>
    match leafValues with
    | [lv] => if lv.1.isEmpty then .ok lv.2 else .error (.valueError "Expected single leaf value")
    | _ => .error (.valueError "Expected single leaf value")

/-- The field loop of `hydrate_value_by_leaf_values` (`_path.py:235-271`):
`None`-typed fields are skipped; a record-typed field recurses on the tails
of its matching leaf part-lists; other fields go through
`hydrateFieldScalarOrTable`. -/
def hydrateFieldVals : Fields → List (List Part × Val) → Except EvalErr (List (String × Val))
  | .nil, _ => .ok []
  | .cons fieldName (Ty.modelCls name sub) rest, leafValues =>
    exceptFieldCons fieldName
      (hydrateValueByLeafValues (Ty.modelCls name sub)
        ((matchingLeafParts fieldName leafValues).map (fun lv => (lv.1.drop 1, lv.2))))
      (hydrateFieldVals rest leafValues)
  | .cons fieldName fieldType rest, leafValues =>
    if tyIsNone fieldType then hydrateFieldVals rest leafValues
    else
      exceptFieldCons fieldName (hydrateFieldScalarOrTable fieldName fieldType leafValues)
        (hydrateFieldVals rest leafValues)
end

/-! ## Calc / verif registration (`_models.py:21-51,148-166,185-202`) -/

/-- `Ref(path, scope)`: an authorial reference annotation. -/
structure Ref where
  path : String
  scope : Option String
deriving DecidableEq, Repr

/-- The `raise` sites of registration. -/
inductive RegErr
  | missingRef (param : String)
  | scopeNotImported (dep : String)
  | pathErr (e : PathError)
  | missingReturn
  | returnNotType
deriving DecidableEq, Repr

/-- `_get_dep_refs_from_signature`: each parameter must carry a `Ref`
annotation, else `TypeError` (the spec's `ErrMissingRef`); the first
offending parameter raises. -/
def getDepRefsFromSignature : List (String × Option Ref) → Except RegErr (List (String × Ref))
  | [] => .ok []
  | pr :: rest =>
    match pr.2 with
    | none => .error (.missingRef pr.1)
    | some r =>
      match getDepRefsFromSignature rest with
      | .error e => .error e
      | .ok deps => .ok ((pr.1, r) :: deps)

/-- `_get_return_type_from_signature`: the annotation must be present and
must be a class (`isinstance(return_annotation, type)`; a parametrized
generic alias is NOT an instance of `type`). -/
def getReturnTypeFromSignature (ret : Option Ty) : Except RegErr Ty :=
  match ret with
  | none => .error .missingReturn
  | some t => if tyIsClass t then .ok t else .error .returnNotType

/-- The scope a reference resolves to: its own scope if given, else the
owning calc/verif's default scope. -/
def scopeOfRef (defaultScope : String) (r : Ref) : String :=
  match r.scope with
  | none => defaultScope
  | some s => s

/-- The dependency-scope loop shared by `Calculation.__post_init__` and
`Verification.__post_init__`: a reference whose resolved scope differs from
the owner's default scope and is not among the imported scope names raises
`ValueError` (the spec's `ErrScopeNotImported`). -/
def checkDepScopes (defaultScope : String) (imports : List String)
    (deps : List (String × Ref)) : Except RegErr Unit :=
  match deps with
  | [] => .ok ()
  | d :: rest =>
    let sc := scopeOfRef defaultScope d.2
    if sc != defaultScope && !(imports.contains sc) then .error (.scopeNotImported d.1)
    else checkDepScopes defaultScope imports rest

/-- `ref_to_project_path`: parse the raw path and pair it with the resolved
scope. -/
def refToProjectPath (defaultScope : String) (r : Ref) : Except RegErr PPath :=
  match parsePath r.path with
  | .ok tp => .ok ⟨scopeOfRef defaultScope r, tp⟩
  | .error e => .error (.pathErr e)

/-- The `dep_ppaths` comprehension: resolve each reference to a project
path; the first unparsable path raises. -/
def resolveDepPpaths (defaultScope : String) :
    List (String × Ref) → Except RegErr (List (String × PPath))
  | [] => .ok []
  | d :: rest =>
    match refToProjectPath defaultScope d.2 with
    | .error e => .error e
    | .ok p =>
      match resolveDepPpaths defaultScope rest with
      | .error e => .error e
      | .ok ps => .ok ((d.1, p) :: ps)

/-- `Calculation.__post_init__` (`_models.py:148-166`): extract the dep
refs, validate their scopes, resolve them to project paths, then extract
the return type.  Returns the `dep_ppaths` mapping and the output type. -/
def calculationInit (defaultScope : String) (imports : List String)
    (params : List (String × Option Ref)) (ret : Option Ty) :
    Except RegErr (List (String × PPath) × Ty) :=
  match getDepRefsFromSignature params with
  | .error e => .error e
  | .ok depRefs =>
    match checkDepScopes defaultScope imports depRefs with
    | .error e => .error e
    | .ok _ =>
      match resolveDepPpaths defaultScope depRefs with
      | .error e => .error e
      | .ok depPpaths =>
        match getReturnTypeFromSignature ret with
        | .error e => .error e
        | .ok outTy => .ok (depPpaths, outTy)

/-- `Verification.__post_init__` (`_models.py:185-202`): identical to the
calculation case except that the return annotation is never inspected (the
`ret` argument is unused by the source code). -/
def verificationInit (defaultScope : String) (imports : List String)
    (params : List (String × Option Ref)) (_ret : Option Ty) :
    Except RegErr (List (String × PPath)) :=
  match getDepRefsFromSignature params with
  | .error e => .error e
  | .ok depRefs =>
    match checkDepScopes defaultScope imports depRefs with
    | .error e => .error e
    | .ok _ => resolveDepPpaths defaultScope depRefs

/-! ## Project registry (`_models.py:54-123`) -/

/-- A registered calculation: the opaque callable (here a function from the
keyword-argument mapping to the output value), the resolved `dep_ppaths`
and the declared output type. -/
structure Calculation where
  name : String
  func : List (String × Val) → Val
  depPpaths : List (String × PPath)
  outputType : Ty

/-- A registered verification (no declared output type is stored). -/
structure Verification where
  name : String
  func : List (String × Val) → Val
  depPpaths : List (String × PPath)

/-- A scope: optional root model type, calculations and verifications by
name. -/
structure Scope where
  name : String
  rootModel : Option Ty
  calculations : List (String × Calculation)
  verifications : List (String × Verification)

/-- A project: scopes by name. -/
structure Project where
  name : String
  scopes : List (String × Scope)

/-- `model_fields` lookup during type resolution. -/
def fieldsLookup : Fields → String → Option Ty
  | .nil, _ => none
  | .cons n t rest, name => if n == name then some t else fieldsLookup rest name

/-- `root.lstrip("@")` used by `Project.get_type` for calc roots (strips ALL
leading prefix characters). -/
def lstripAt (r : String) : String := String.mk (r.data.dropWhile (fun c => c == '@'))

/-- `CalcPath.calc_name` (`root[len("@"):]`). -/
def calcNameOfRoot (r : String) : String := String.mk (r.data.drop 1)

/-- `VerificationPath.verification_name` (`root[len("?"):]`). -/
def verifNameOfRoot (r : String) : String := String.mk (r.data.drop 1)

/-- One step of the model-path walk in `Project.get_type`
(`_models.py:85-104`): an `AttributePart` reads the field's annotation
(`model_fields` is only present on `BaseModel` subclasses; on anything else
the attribute access raises); an `ItemPart` requires the current type to be
a two-parameter generic — among our annotation objects only the
parametrized `Table[K, V]` alias has two type arguments — and returns the
value type. -/
def getTypeStep (current : Ty) (part : Part) : Except EvalErr Ty :=
  match part with
  | .attr n =>
    match current with
    | .modelCls _ fields =>
      match fieldsLookup fields n with
      | some t => .ok t
      | none => .error (.keyError ("Attribute not found: " ++ n))
    | _ => .error (.attributeError "model_fields")
  | .item _ =>
    match current with
    | .tableAlias _ vTy => .ok vTy
    | _ => .error (.typeError "not subscriptable")

/-- `Project.get_type` (`_models.py:73-123`): model paths walk the scope's
root model part by part; calc paths return the registered calculation's
output type, ignoring the parts; verification paths return `bool`. -/
def getType (p : Project) (pp : PPath) : Except EvalErr Ty :=
  match p.scopes.lookup pp.scope with
  | none => .error (.keyError ("Scope not found: " ++ pp.scope))
  | some scope =>
    match pp.path with
    | .modelP parts =>
      match scope.rootModel with
      | none => .error (.runtimeError "no root model")
      | some rm => parts.foldlM getTypeStep rm
    | .calcP root _ =>
      match scope.calculations.lookup (lstripAt root) with
      | none => .error (.keyError "Calculation not found")
      | some c => .ok c.outputType
    | .verifP _ => .ok (.scalarCls "bool")

/-! ## Dependency graph builder (`_build.py`) -/

/-- Add `dst` to the successor set of `src` (`defaultdict(set)`: a first
touch appends the key; an already-present destination is not duplicated). -/
def addEdge (g : List (PPath × List PPath)) (src dst : PPath) : List (PPath × List PPath) :=
  match g with
  | [] => [(src, [dst])]
  | e :: rest =>
    if e.1 = src then
      (if dst ∈ e.2 then e else (e.1, e.2 ++ [dst])) :: rest
    else e :: addEdge rest src dst

/-- The source-leaf construction shared by the calc and verif loops of
`build_dependencies_graph`: the dependency path's parts extended with the
leaf parts, with the path sub-kind preserved; a verification dependency
path raises `TypeError`. -/
def mkSrcLeaf (depPpath : PPath) (srcLeafParts : List Part) : Except EvalErr PPath :=
  match depPpath.path with
  | .modelP parts => .ok ⟨depPpath.scope, .modelP (parts ++ srcLeafParts)⟩
  | .calcP root parts => .ok ⟨depPpath.scope, .calcP root (parts ++ srcLeafParts)⟩
  | .verifP _ => .error (.typeError "Unsupported dependency path type")

/-- `build_dependencies_graph` (`_build.py:11-60`): for every calc and each
of its dependency paths, resolve the dependency's type, enumerate its
leaves, and connect every source leaf to every leaf of the calc's output
type; for every verif connect every source leaf to the single node
`ProjectPath(scope, VerificationPath("?" + name))`.  The function returns
ONLY the successor multimap (a plain `dict[ProjectPath, set[ProjectPath]]`). -/
def buildDependenciesGraph (p : Project) : Except EvalErr (List (PPath × List PPath)) :=
  p.scopes.foldlM
    (fun g0 sc =>
      match sc with
      | (scopeName, scope) => do
        let g1 ← scope.calculations.foldlM
          (fun g1 cpair =>
            match cpair with
            | (calcName, c) =>
              c.depPpaths.foldlM
                (fun g2 dep => do
                  let depType ← getType p dep.2
                  let srcLeaves ← iterLeafPathParts depType []
                  srcLeaves.foldlM
                    (fun g3 srcLeafParts => do
                      let srcLeaf ← mkSrcLeaf dep.2 srcLeafParts
                      let dstLeaves ← iterLeafPathParts c.outputType []
                      pure (dstLeaves.foldl
                        (fun g4 dstLeafParts =>
                          addEdge g4 srcLeaf
                            ⟨scopeName, .calcP ("@" ++ calcName) dstLeafParts⟩)
                        g3))
                    g2)
                g1)
          g0
        scope.verifications.foldlM
          (fun g2 vpair =>
            match vpair with
            | (verifName, v) =>
              v.depPpaths.foldlM
                (fun g3 dep => do
                  let depType ← getType p dep.2
                  let srcLeaves ← iterLeafPathParts depType []
                  srcLeaves.foldlM
                    (fun g4 srcLeafParts => do
                      let srcLeaf ← mkSrcLeaf dep.2 srcLeafParts
                      pure (addEdge g4 srcLeaf ⟨scopeName, .verifP ("?" ++ verifName)⟩))
                    g3)
                g2)
          g1)
    []

/-! ## Scheduler and graph container

`evaluate_project` (`_eval.py:7,10,33-34,41`) imports `topological_sort`
from `veriq._utils` and reads `.successors` and `.predecessors` off the
value returned by `build_dependencies_graph`; neither `topological_sort`
nor any such container type exists anywhere under the source tree (only
these call sites do).  The two definitions below are therefore modelled
from the spec, not translated from source code. -/

/-- Modelled from the spec: the dependency-graph container whose
`successors` and `predecessors` views `evaluate_project` reads; the class
itself is absent from the source tree.  Per spec section 4.6 the builder
"materializes the predecessor multimap (inverse of successors) as a
companion view". -/
structure DependenciesGraph where
  successors : List (PPath × List PPath)
  predecessors : List (PPath × List PPath)

/-- The inverse of a successor multimap. -/
def invertMultimap (succs : List (PPath × List PPath)) : List (PPath × List PPath) :=
  succs.foldl (fun acc e => e.2.foldl (fun acc2 dst => addEdge acc2 dst e.1) acc) []

/-- Modelled from the spec: packaging the successor dict with its inverse. -/
def mkDependenciesGraph (succs : List (PPath × List PPath)) : DependenciesGraph :=
  ⟨succs, invertMultimap succs⟩

/-- Multimap lookup with an empty default. -/
def mmLookup (m : List (PPath × List PPath)) (k : PPath) : List PPath :=
  match m.lookup k with
  | some l => l
  | none => []

/-- Every node appearing in the multimap, as a key or as a destination, in
first-appearance order. -/
def collectNodes (succs : List (PPath × List PPath)) : List PPath :=
  succs.foldl
    (fun acc e =>
      (e.1 :: e.2).foldl (fun acc2 n => if n ∈ acc2 then acc2 else acc2 ++ [n]) acc)
    []

/-- In-degree of a node: the number of sources listing it as a successor. -/
def inDegreeOf (succs : List (PPath × List PPath)) (n : PPath) : Nat :=
  succs.foldl (fun acc e => if n ∈ e.2 then acc + 1 else acc) 0

/-- The worklist loop of Kahn's algorithm: pop the front of the FIFO ready
queue, emit it, decrement its successors' in-degrees, and enqueue those
that reach zero, in successor-list order. -/
def kahnLoop (succs : List (PPath × List PPath)) :
    Nat → List (PPath × Nat) → List PPath → List PPath → List PPath
  | 0, _, _, emitted => emitted.reverse
  | _ + 1, _, [], emitted => emitted.reverse
  | fuel + 1, indeg, n :: queueRest, emitted =>
    let step := (mmLookup succs n).foldl
      (fun acc m =>
        match acc.1.lookup m with
        | some d =>
          let indeg2 := acc.1.map (fun e => if e.1 = m then (e.1, d - 1) else e)
          if d - 1 = 0 then (indeg2, acc.2 ++ [m]) else (indeg2, acc.2)
        | none => acc)
      (indeg, ([] : List PPath))
    kahnLoop succs fuel step.1 (queueRest ++ step.2) (n :: emitted)

/-- Modelled from the spec (section 4.7): `topological_sort` is imported by
the evaluator from `veriq._utils` but absent from the source tree.  Kahn's
algorithm on in-degrees computed from the successor multimap, with a stable
FIFO ready queue seeded in node-appearance order; if fewer nodes are
emitted than exist, the graph has a cycle (`ErrCycle`). -/
def topologicalSort (succs : List (PPath × List PPath)) : Except EvalErr (List PPath) :=
  let nodes := collectNodes succs
  let indeg := nodes.map (fun n => (n, inDegreeOf succs n))
  let ready := (nodes.filter (fun n => inDegreeOf succs n = 0))
  let order := kahnLoop succs nodes.length indeg ready []
  if order.length < nodes.length then .error .cycleError else .ok order

/-! ## Evaluator (`_eval.py`) -/

/-- `result[key] = value` on the result dict. -/
def resultSet (result : List (PPath × Val)) (k : PPath) (v : Val) : List (PPath × Val) :=
  match result with
  | [] => [(k, v)]
  | e :: rest => if e.1 = k then (e.1, v) :: rest else e :: resultSet rest k v

/-- `evaluate_project` (`_eval.py:15-68`).

Phase 1 hydrates every model leaf of every scope's root model into the
result dict.  Phase 2 walks the topological order; for each node not
already present it gathers the values of the node's predecessors and then:
for a calc node, builds the keyword arguments by LOOKING EACH `dep_ppath`
UP IN THE PREDECESSOR-VALUE MAPPING (the `FIXME` at `_eval.py:47` — no
structured reconstruction), invokes the function, and splays the output's
leaves into the result; for a verif node it stores the function's return
value unchecked.  A `dep_ppath` that is not itself one of the node's
predecessor leaves raises `KeyError`. -/
def evaluateProject (p : Project) (modelData : List (String × Val)) :
    Except EvalErr (List (PPath × Val)) := do
  let result0 ← modelData.foldlM
    (fun result sd =>
      match p.scopes.lookup sd.1 with
      | none => .error (.keyError ("Scope not found: " ++ sd.1))
      | some scope =>
        match scope.rootModel with
        | none => pure result
        | some rm => do
          let leaves ← iterLeafPathParts rm []
          leaves.foldlM
            (fun result2 leafParts => do
              let v ← getValueByParts sd.2 leafParts
              pure (resultSet result2 ⟨sd.1, .modelP leafParts⟩ v))
            result)
    []
  let depsDict ← buildDependenciesGraph p
  let graph := mkDependenciesGraph depsDict
  let evalOrder ← topologicalSort graph.successors
  evalOrder.foldlM
    (fun result pp =>
      if (result.lookup pp).isSome then pure result
      else
        match (mmLookup graph.predecessors pp).mapM
            (fun q =>
              match result.lookup q with
              | some v => Except.ok (q, v)
              | none => Except.error (EvalErr.keyError "predecessor value missing")) with
        | .error e => .error e
        | .ok predecessorValues =>
          match pp.path with
          | .calcP root parts =>
            (match p.scopes.lookup pp.scope with
             | none => .error (.keyError "scope")
             | some scope =>
               match scope.calculations.lookup (calcNameOfRoot root) with
               | none => .error (.keyError "calculation")
               | some c =>
                 match c.depPpaths.mapM
                     (fun d =>
                       match predecessorValues.lookup d.2 with
                       | some v => Except.ok (d.1, v)
                       | none => Except.error (EvalErr.keyError ("input value missing: " ++ pathStr d.2.path))) with
                 | .error e => .error e
                 | .ok inputValues => do
                   let calcOutput := c.func inputValues
                   let outLeaves ← iterLeafPathParts c.outputType []
                   outLeaves.foldlM
                     (fun result2 leafParts => do
                       let v ← getValueByParts calcOutput leafParts
                       pure (resultSet result2 ⟨pp.scope, .calcP root (parts ++ leafParts)⟩ v))
                     result)
          | .verifP root =>
            (match p.scopes.lookup pp.scope with
             | none => .error (.keyError "scope")
             | some scope =>
               match scope.verifications.lookup (verifNameOfRoot root) with
               | none => .error (.keyError "verification")
               | some v =>
                 match v.depPpaths.mapM
                     (fun d =>
                       match predecessorValues.lookup d.2 with
                       | some w => Except.ok (d.1, w)
                       | none => Except.error (EvalErr.keyError ("input value missing: " ++ pathStr d.2.path))) with
                 | .error e => .error e
                 | .ok inputValues => pure (resultSet result pp (v.func inputValues)))
          | .modelP _ => .error (.typeError "Unsupported path type for evaluation"))
    result0

/-! ## Specification-side predicates used in theorem statements -/

/-- Characters of the stringification of a part list. -/
def partsChars (ps : List Part) : List Char :=
  (ps.map partStr).foldr (fun s acc => s.data ++ acc) []

/-- An attribute name that survives parsing: contains no `'.'` and no
`'['`. -/
def chkName (n : String) : Bool := n.data.all (fun c => !isStopChar c)

/-- A single item key that survives parsing: contains no `']'` and no
`','`, and is unchanged by stripping. -/
def chkKey (k : String) : Bool :=
  k.data.all (fun c => !(c == ']') && !(c == ',')) && stripChars k.data == k.data

/-- A part in canonical form: canonical item parts carry single keys. -/
def chkPart : Part → Bool
  | .attr n => chkName n
  | .item (.s k) => chkKey k
  | .item (.t _) => false

/-- A root in canonical form: nonempty, free of stop characters, and
starting with the given sigil. -/
def chkRoot (r : String) (sigil : Char) : Bool :=
  match r.data with
  | [] => false
  | c :: _ => c == sigil && r.data.all (fun c2 => !isStopChar c2)

/-- A typed path whose stringification is a canonical path string: all
parts canonical, the root canonical for its sub-kind, and the whole
rendered string unchanged by stripping. -/
def canonicalPath (p : TypedPath) : Bool :=
  (pathParts p).all chkPart &&
  (match p with
   | .modelP _ => true
   | .calcP r _ => chkRoot r '@'
   | .verifP r => chkRoot r '?') &&
  (stripChars (pathStr p).data == (pathStr p).data)

/-- Field names of a record schema, in declaration order. -/
def fieldNames : Fields → List String
  | .nil => []
  | .cons n _ rest => n :: fieldNames rest

/-- Every field's annotation is a scalar leaf class (neither a record, nor
a table class, nor a parametrized table alias, nor `None`). -/
def fieldsAllScalarLeaf : Fields → Bool
  | .nil => true
  | .cons _ t rest =>
    (match t with
     | .scalarCls _ => true
     | .enumCls _ => true
     | _ => false) && fieldsAllScalarLeaf rest

/-- Every reference of the parameter list resolves to the owner's default
scope or to an imported scope. -/
def refScopesValid (defaultScope : String) (imports : List String)
    (params : List (String × Option Ref)) : Bool :=
  params.all
    (fun pr =>
      match pr.2 with
      | none => true
      | some r =>
        scopeOfRef defaultScope r == defaultScope ||
        imports.contains (scopeOfRef defaultScope r))

/-! ## Concrete instances used by the theorems -/

/-- A closed `StrEnum` with two members. -/
def optionEnum : EnumTy := ⟨"Option", ["option_a", "option_b"]⟩

/-- The enum member `Option.OPTION_A` as a key object. -/
def keyOptionA : TblKey := .single ⟨.strEnum optionEnum, "option_a"⟩

/-- The enum member `Option.OPTION_B` as a key object. -/
def keyOptionB : TblKey := .single ⟨.strEnum optionEnum, "option_b"⟩

/-- The plain string `"option_b"` (not an enum member) as a key object. -/
def keyPlainB : TblKey := .single ⟨.plainStr, "option_b"⟩

/-- The plain string `"extra"` as a key object. -/
def keyPlainExtra : TblKey := .single ⟨.plainStr, "extra"⟩

/-- A record schema with two scalar fields. -/
def subRecordTy : Ty :=
  .modelCls "Sub" (.cons "a" (.scalarCls "float") (.cons "b" (.scalarCls "float") .nil))

/-- A conforming value of `subRecordTy`. -/
def subRecordVal : Val :=
  .recV (.cons "a" (Val.num 3) (.cons "b" (Val.num 4) .nil))

/-- A calc whose single reference `$.sub` targets the two-leaf record
`subRecordTy` and whose output is a scalar. -/
def calcOnRecord : Calculation :=
  { name := "f"
    func := fun _ => Val.num 0
    depPpaths := [("x", ⟨"M", .modelP [Part.attr "sub"]⟩)]
    outputType := .scalarCls "float" }

/-- A project whose root model has the record field `sub` consumed whole by
`calcOnRecord`. -/
def recordDepProject : Project :=
  { name := "P"
    scopes :=
      [("M",
        { name := "M"
          rootModel := some (.modelCls "RootModel" (.cons "sub" subRecordTy .nil))
          calculations := [("f", calcOnRecord)]
          verifications := [] })] }

/-- Model data for `recordDepProject`. -/
def recordDepData : List (String × Val) := [("M", .recV (.cons "sub" subRecordVal .nil))]

/-- A record output type with two scalar fields. -/
def outRecordTy : Ty :=
  .modelCls "Out" (.cons "p" (.scalarCls "float") (.cons "q" (.scalarCls "float") .nil))

/-- A calc reading `$.sub` and producing the two-leaf record
`outRecordTy`. -/
def calcG : Calculation :=
  { name := "g"
    func := fun _ => Val.vnone
    depPpaths := [("x", ⟨"M", .modelP [Part.attr "sub"]⟩)]
    outputType := outRecordTy }

/-- A verif reading the whole output of `calcG`. -/
def verifW : Verification :=
  { name := "w"
    func := fun _ => Val.vbool true
    depPpaths := [("y", ⟨"M", .calcP "@g" []⟩)] }

/-- A project exercising both loops of the graph builder: a calc with a
record dependency and record output, and a verif depending on the calc. -/
def graphProject : Project :=
  { name := "G"
    scopes :=
      [("M",
        { name := "M"
          rootModel := some (.modelCls "RootModel" (.cons "sub" subRecordTy .nil))
          calculations := [("g", calcG)]
          verifications := [("w", verifW)] })] }

/-- A verif whose function returns the non-boolean value `7`. -/
def verifNonBool : Verification :=
  { name := "v"
    func := fun _ => Val.num 7
    depPpaths := [("x", ⟨"S", .modelP [Part.attr "x"]⟩)] }

/-- A project with a single scalar model leaf and the non-boolean verif. -/
def nonBoolProject : Project :=
  { name := "P7"
    scopes :=
      [("S",
        { name := "S"
          rootModel := some (.modelCls "Root" (.cons "x" (.scalarCls "float") .nil))
          calculations := []
          verifications := [("v", verifNonBool)] })] }

/-- Model data for `nonBoolProject`. -/
def nonBoolData : List (String × Val) := [("S", .recV (.cons "x" (Val.num 1) .nil))]

/-! ## Theorems -/

/-- C1 (counterexample): the schema `Table[Option, float]` — the
parametrized annotation form in which a table schema is written — is a
`types.GenericAlias` and hence not a class, so the schema walker yields
exactly the empty part-list for it: the enumeration is NOT one
`[Item(k)]` per expected key, and it DOES yield the empty part-list. -/
theorem c1_counterexample :
    iterLeafPathParts (Ty.tableAlias (Ty.enumCls optionEnum) (Ty.scalarCls "float")) [] =
      .ok [[]] ∧
    iterLeafPathParts (Ty.tableAlias (Ty.enumCls optionEnum) (Ty.scalarCls "float")) [] ≠
      .ok [[Part.item (.s "option_a")], [Part.item (.s "option_b")]] := by
  refine ⟨rfl, fun h => ?_⟩
  rw [show iterLeafPathParts (Ty.tableAlias (Ty.enumCls optionEnum) (Ty.scalarCls "float")) [] =
    Except.ok [[]] from rfl] at h
  injection h with h
  exact absurd h (by decide)

/-- C1 (amended): leaf enumeration of a `Table[K, V]` schema — the
parametrized annotation, a `types.GenericAlias` and hence not a class —
yields exactly one part-list, the empty one: the whole table is a single
scalar leaf and no per-key `[Item(k)]` part-lists are produced.  The
per-key branch of the walker never yields at all: on an actual class
subclassing `Table` it raises `TypeError`, because `expected_keys` is an
instance property and iterating the property object fails. -/
theorem c1_table_leaf_enumeration (kTy vTy : Ty) (keys : List String) :
    iterLeafPathParts (Ty.tableAlias kTy vTy) [] = .ok [[]] ∧
    iterLeafPathParts (Ty.tableCls keys) [] =
      .error (.typeError "'property' object is not iterable") := by
  exact ⟨rfl, rfl⟩

/-- C2: scheduled execution does not hydrate-from-leaves.  On a project
whose calc references the record `$.sub` with two leaves, evaluation
aborts with a `KeyError` because the input value is looked up under the
single dependency path `$.sub`, which is not among the predecessor leaves
`$.sub.a`, `$.sub.b`; hydrate-from-leaves over those same predecessor
values, which the spec mandates, reconstructs the structured argument. -/
theorem c2_eval_lookup_not_hydrate :
    evaluateProject recordDepProject recordDepData =
      .error (.keyError "input value missing: $.sub") ∧
    hydrateValueByLeafValues subRecordTy
        [([Part.attr "a"], Val.num 3), ([Part.attr "b"], Val.num 4)] = .ok subRecordVal := by
  exact ⟨rfl, rfl⟩

/-- C3: `build_dependencies_graph` emits, for each calc reference, an edge
from every source leaf to every output leaf, and a single destination node
per verif — but its output is ONLY the successor dict: no predecessor
companion view is part of the returned value. -/
theorem c3_builder_output :
    buildDependenciesGraph graphProject =
      .ok
        [(⟨"M", .modelP [Part.attr "sub", Part.attr "a"]⟩,
          [⟨"M", .calcP "@g" [Part.attr "p"]⟩, ⟨"M", .calcP "@g" [Part.attr "q"]⟩]),
         (⟨"M", .modelP [Part.attr "sub", Part.attr "b"]⟩,
          [⟨"M", .calcP "@g" [Part.attr "p"]⟩, ⟨"M", .calcP "@g" [Part.attr "q"]⟩]),
         (⟨"M", .calcP "@g" [Part.attr "p"]⟩, [⟨"M", .verifP "?w"⟩]),
         (⟨"M", .calcP "@g" [Part.attr "q"]⟩, [⟨"M", .verifP "?w"⟩])] := by
  rfl

/-- C7 (counterexample): a verif whose function returns the non-boolean
value `7` evaluates without any error; the `7` is stored at the verif's
node — no `ErrVerifReturn` is raised anywhere. -/
theorem c7_counterexample :
    evaluateProject nonBoolProject nonBoolData =
      .ok
        [(⟨"S", .modelP [Part.attr "x"]⟩, Val.num 1),
         (⟨"S", .verifP "?v"⟩, Val.num 7)] := by
  rfl

/-- C7 (amended): no boolean enforcement exists for verifs.  Registration
(`Verification.__post_init__`) never inspects the return annotation — it
succeeds for any annotation, including a missing one — and the evaluator
stores whatever value the verif function returns, unchecked. -/
theorem c7_no_boolean_enforcement (ret : Option Ty) :
    (verificationInit "S" [] [("x", some ⟨"$.x", none⟩)] ret).isOk = true ∧
    (evaluateProject nonBoolProject nonBoolData).isOk = true := by
  exact ⟨rfl, rfl⟩

/-- C9 (counterexample): a successfully constructed table is mutable
through the `dict` operations `Table` inherits: `__setitem__` inserts the
key `"extra"`, which is outside the expected key set, and `__delitem__`
removes the expected key `Option.OPTION_A`. -/
theorem c9_counterexample :
    tableInit [(keyOptionA, Val.num 1), (keyOptionB, Val.num 2)] =
      .ok [(keyOptionA, Val.num 1), (keyOptionB, Val.num 2)] ∧
    pyDictHasKey [(keyOptionA, Val.num 1), (keyOptionB, Val.num 2)] keyPlainExtra = false ∧
    pyDictHasKey
      (pyDictSetK [(keyOptionA, Val.num 1), (keyOptionB, Val.num 2)] keyPlainExtra (Val.num 9))
      keyPlainExtra = true ∧
    pyDictDelK [(keyOptionA, Val.num 1), (keyOptionB, Val.num 2)] keyOptionA =
      [(keyOptionB, Val.num 2)] := by
  exact ⟨rfl, rfl, rfl, rfl⟩

/-- C5 (counterexample): a path string with an unclosed bracket does NOT
fail: `Path.parse` scans to the end of the string and treats the unclosed
bracket's contents as the key. -/
theorem c5_counterexample :
    parsePath "$.t[abc" = .ok (.modelP [Part.attr "t", Part.item (.s "abc")]) := by
  rfl

/-- C5 (amended): path parsing raises a path-syntax error when the
stripped string's leading sigil is none of `$`, `@`, `?`; when a `?` path
carries non-empty parts; when a `$` path's root is not exactly `"$"`; and
additionally when a character other than `'.'` or `'['` appears where a
part must start (e.g. right after a closing bracket).  An unclosed bracket
is NOT an error: the key silently runs to the end of the string. -/
theorem c5_parse_error_cases :
    (∀ s : String,
        strStartsWith1 (pyStrip s) '$' = false →
        strStartsWith1 (pyStrip s) '@' = false →
        strStartsWith1 (pyStrip s) '?' = false →
        parsePath s = .error .unknownRootSigil) ∧
    parsePath "$x.y" = .error .modelRootMismatch ∧
    parsePath "?v.x" = .error .verifPartsNonEmpty ∧
    parsePath "$.t[abc" = .ok (.modelP [Part.attr "t", Part.item (.s "abc")]) ∧
    parsePath "$.a[k]x" = .error .unexpectedChar := by
  refine ⟨?_, rfl, rfl, rfl, rfl⟩
  intro s h1 h2 h3
  simp [parsePath, h1, h2, h3]

/-- C5 (witness): the unknown-sigil case of `c5_parse_error_cases` applied
at the concrete string `"abc"`. -/
theorem c5_parse_error_cases_witness : parsePath "abc" = .error .unknownRootSigil := by
  exact c5_parse_error_cases.1 "abc" (by decide) (by decide) (by decide)

theorem sKeyEq_refl (k : SKey) : sKeyEq k k = true := by
  unfold sKeyEq
  split <;> simp

theorem tblKeyEq_refl (k : TblKey) : tblKeyEq k k = true := by
  cases k with
  | single a => exact sKeyEq_refl a
  | tup ks =>
    unfold tblKeyEq
    simp only [beq_self_eq_true, Bool.true_and]
    induction ks with
    | nil => rfl
    | cons a rest ih => simpa [List.all_cons, sKeyEq_refl a] using ih

theorem pyDictSetK_of_fresh (t : List (TblKey × Val)) (k : TblKey) (v : Val)
    (hk : pyDictHasKey t k = false) : pyDictSetK t k v = t ++ [(k, v)] := by
  induction t with
  | nil => rfl
  | cons e rest ih =>
    unfold pyDictHasKey at hk
    simp only [List.any_cons, Bool.or_eq_false_iff] at hk
    unfold pyDictSetK
    simp only [hk.1, Bool.false_eq_true, if_false, List.cons_append]
    exact congrArg (List.cons e) (ih hk.2)

theorem pyDictDelK_length (t : List (TblKey × Val)) (k : TblKey)
    (hk : pyDictHasKey t k = true) : (pyDictDelK t k).length + 1 = t.length := by
  induction t with
  | nil => simp [pyDictHasKey] at hk
  | cons e rest ih =>
    unfold pyDictDelK
    by_cases he : tblKeyEq e.1 k = true
    · simp [he]
    · unfold pyDictHasKey at hk
      simp only [List.any_cons, Bool.or_eq_true] at hk
      rcases hk with hk | hk
      · exact absurd hk he
      · simp only [he, Bool.false_eq_true, if_false, List.length_cons]
        exact congrArg (· + 1) (ih hk)

/-- C9 (amended): `Table` enforces closedness only at construction.  A
constructed table inherits `dict`'s mutating operations unoverridden:
`__setitem__` with a key not currently present — in particular one outside
the expected set — makes it a key and grows the key set, and `__delitem__`
removes any present key — in particular an expected one — shrinking the
key set. -/
theorem c9_table_mutable (m t : List (TblKey × Val)) (k : TblKey) (v : Val)
    (_hok : tableInit m = .ok t) (hk : pyDictHasKey t k = false) :
    pyDictHasKey (pyDictSetK t k v) k = true ∧
    (pyDictSetK t k v).length = t.length + 1 ∧
    (∀ k2, pyDictHasKey t k2 = true → (pyDictDelK t k2).length + 1 = t.length) := by
  refine ⟨?_, ?_, fun k2 h2 => pyDictDelK_length t k2 h2⟩
  · rw [pyDictSetK_of_fresh t k v hk]
    unfold pyDictHasKey
    simp [tblKeyEq_refl]
  · rw [pyDictSetK_of_fresh t k v hk]
    simp

/-- C9 (witness): `c9_table_mutable` applied to the concrete table
`{OPTION_A: 1, OPTION_B: 2}` and the foreign key `"extra"`. -/
theorem c9_table_mutable_witness :
    pyDictHasKey
        (pyDictSetK [(keyOptionA, Val.num 1), (keyOptionB, Val.num 2)] keyPlainExtra (Val.num 9))
        keyPlainExtra = true ∧
    (pyDictSetK [(keyOptionA, Val.num 1), (keyOptionB, Val.num 2)] keyPlainExtra
        (Val.num 9)).length =
      ([(keyOptionA, Val.num 1), (keyOptionB, Val.num 2)] : List (TblKey × Val)).length + 1 := by
  have h := c9_table_mutable [(keyOptionA, Val.num 1), (keyOptionB, Val.num 2)]
    [(keyOptionA, Val.num 1), (keyOptionB, Val.num 2)] keyPlainExtra (Val.num 9) rfl (by decide)
  exact ⟨h.1, h.2.1⟩

/-- C6 (counterexample): the non-enum key-type check applies only to the
SAMPLE (first) key.  The mapping `{Option.OPTION_A: 1, "option_b": 2}`,
whose second key is a plain string and not a closed enum member,
constructs successfully — the plain string compares equal to the enum
member `Option.OPTION_B` — even though the very same key as the sample
makes construction fail with the key-type error. -/
theorem c6_counterexample :
    tableInit [(keyOptionA, Val.num 1), (keyPlainB, Val.num 2)] =
      .ok [(keyOptionA, Val.num 1), (keyPlainB, Val.num 2)] ∧
    expectedKeysOfSample keyPlainB = .error .keyTypeError ∧
    tableInit [(keyPlainB, Val.num 2), (keyOptionA, Val.num 1)] = .error .keyTypeError := by
  exact ⟨rfl, rfl, rfl⟩

theorem tableChecks_ok_iff (mapping t : List (TblKey × Val)) :
    tableChecks mapping = .ok t ↔
      ∃ sample restd expected,
        mapping = sample :: restd ∧
        expectedKeysOfSample sample.1 = .ok expected ∧
        (∀ ek ∈ expected, ∃ k ∈ mapping.map Prod.fst, tblKeyEq k ek = true) ∧
        (∀ k ∈ mapping.map Prod.fst, ∃ ek ∈ expected, tblKeyEq k ek = true) ∧
        t = mapping := by
  cases mapping with
  | nil =>
    simp only [tableChecks]
    constructor
    · intro h
      cases h
    · rintro ⟨s2, r2, exp2, heq, -⟩
      cases heq
  | cons sample restd =>
    show (match expectedKeysOfSample sample.1 with
      | .error err => Except.error err
      | .ok expected =>
        if (!(expected.filter
            (fun ek => !(((sample :: restd).map (fun e => e.1)).any (fun k => tblKeyEq k ek)))).isEmpty) = true then
          Except.error TblErr.missingKeys
        else
          if (!(((sample :: restd).map (fun e => e.1)).filter
              (fun k => !(expected.any (fun ek => tblKeyEq k ek)))).isEmpty) = true then
            Except.error TblErr.disallowedKeys
          else Except.ok (sample :: restd)) = Except.ok t ↔ _
    cases hexp : expectedKeysOfSample sample.1 with
    | error e =>
      dsimp only
      constructor
      · intro h
        cases h
      · rintro ⟨s2, r2, exp2, heq, hexp2, -⟩
        injection heq with heq1 heq2
        subst heq1
        rw [hexp] at hexp2
        cases hexp2
    | ok expected =>
      dsimp only
      split_ifs with hmiss hdis
      · rw [Bool.not_eq_true'] at hmiss
        constructor
        · intro h
          cases h
        · rintro ⟨s2, r2, exp2, heq, hexp2, hcov, -, -⟩
          injection heq with heq1 heq2
          subst heq1
          subst heq2
          rw [hexp] at hexp2
          injection hexp2 with hexp2
          subst hexp2
          have hne : expected.filter
              (fun ek => !(((sample :: restd).map (fun e => e.1)).any (fun k => tblKeyEq k ek))) ≠ [] := by
            intro h0
            rw [h0] at hmiss
            cases hmiss
          obtain ⟨ek, hekmem⟩ := List.exists_mem_of_ne_nil _ hne
          rw [List.mem_filter] at hekmem
          obtain ⟨k, hkmem, hkek⟩ := hcov ek hekmem.1
          have h3 := hekmem.2
          rw [Bool.not_eq_true', List.any_eq_false] at h3
          exact absurd hkek (h3 k hkmem)
      · rw [Bool.not_eq_true'] at hdis
        constructor
        · intro h
          cases h
        · rintro ⟨s2, r2, exp2, heq, hexp2, -, hallow, -⟩
          injection heq with heq1 heq2
          subst heq1
          subst heq2
          rw [hexp] at hexp2
          injection hexp2 with hexp2
          subst hexp2
          have hne : ((sample :: restd).map (fun e => e.1)).filter
              (fun k => !(expected.any (fun ek => tblKeyEq k ek))) ≠ [] := by
            intro h0
            rw [h0] at hdis
            cases hdis
          obtain ⟨k, hkmem⟩ := List.exists_mem_of_ne_nil _ hne
          rw [List.mem_filter] at hkmem
          obtain ⟨ek, hekmem, hkek⟩ := hallow k hkmem.1
          have h3 := hkmem.2
          rw [Bool.not_eq_true', List.any_eq_false] at h3
          exact absurd hkek (h3 ek hekmem)
      · rw [Bool.not_eq_true, Bool.not_eq_false'] at hmiss hdis
        rw [List.isEmpty_iff, List.filter_eq_nil_iff] at hmiss hdis
        constructor
        · intro h
          injection h with h
          refine ⟨sample, restd, expected, rfl, hexp, ?_, ?_, h.symm⟩
          · intro ek hek
            have h2 := hmiss ek hek
            rw [Bool.not_eq_true, Bool.not_eq_false'] at h2
            rw [List.any_eq_true] at h2
            exact h2
          · intro k hk
            have h2 := hdis k hk
            rw [Bool.not_eq_true, Bool.not_eq_false'] at h2
            rw [List.any_eq_true] at h2
            exact h2
        · rintro ⟨s2, r2, exp2, heq, -, -, -, ht⟩
          rw [ht]

/-- C6 (amended): construction succeeds iff the (deduplicated) input is
nonempty, the FIRST key's components are closed enums (yielding the
expected key set), every expected key is covered by some supplied key, and
every supplied key matches some expected key — membership throughout under
Python key equality, so a non-enum key whose string value matches an
expected member is accepted; and every accepted table's key set equals the
expected key set of its sample key as a Python set. -/
theorem c6_table_construction (entries : List (TblKey × Val)) :
    ((tableInit entries).isOk = true ↔
      ∃ sample restd expected,
        pyDictOfList entries = sample :: restd ∧
        expectedKeysOfSample sample.1 = .ok expected ∧
        (∀ ek ∈ expected, ∃ k ∈ (pyDictOfList entries).map Prod.fst, tblKeyEq k ek = true) ∧
        (∀ k ∈ (pyDictOfList entries).map Prod.fst, ∃ ek ∈ expected, tblKeyEq k ek = true)) ∧
    (∀ t, tableInit entries = .ok t →
      t = pyDictOfList entries ∧
      ∃ sample restd expected,
        pyDictOfList entries = sample :: restd ∧
        expectedKeysOfSample sample.1 = .ok expected ∧
        keySetEquiv (t.map Prod.fst) expected = true) := by
  constructor
  · constructor
    · intro h
      have h2 : ∃ t, tableInit entries = .ok t := by
        cases h3 : tableInit entries with
        | error e => rw [h3] at h; cases h
        | ok t => exact ⟨t, rfl⟩
      obtain ⟨t, ht⟩ := h2
      obtain ⟨sample, restd, expected, heq, hexp, hcov, hallow, -⟩ :=
        (tableChecks_ok_iff (pyDictOfList entries) t).mp ht
      exact ⟨sample, restd, expected, heq, hexp, hcov, hallow⟩
    · rintro ⟨sample, restd, expected, heq, hexp, hcov, hallow⟩
      have ht : tableInit entries = .ok (pyDictOfList entries) :=
        (tableChecks_ok_iff (pyDictOfList entries) (pyDictOfList entries)).mpr
          ⟨sample, restd, expected, heq, hexp, hcov, hallow, rfl⟩
      rw [ht]
      rfl
  · intro t ht
    obtain ⟨sample, restd, expected, heq, hexp, hcov, hallow, htm⟩ :=
      (tableChecks_ok_iff (pyDictOfList entries) t).mp ht
    refine ⟨htm, sample, restd, expected, heq, hexp, ?_⟩
    rw [htm]
    unfold keySetEquiv
    rw [Bool.and_eq_true, List.all_eq_true, List.all_eq_true]
    constructor
    · intro k hk
      rw [List.any_eq_true]
      exact hallow k hk
    · intro ek hek
      rw [List.any_eq_true]
      exact hcov ek hek

/-- C6 (witness): `c6_table_construction` applied to the complete mapping
`{OPTION_A: 1, OPTION_B: 2}`. -/
theorem c6_table_construction_witness :
    (tableInit [(keyOptionA, Val.num 1), (keyOptionB, Val.num 2)]).isOk = true := by
  exact (c6_table_construction [(keyOptionA, Val.num 1), (keyOptionB, Val.num 2)]).1.mpr
    ⟨(keyOptionA, Val.num 1), [(keyOptionB, Val.num 2)], [keyOptionA, keyOptionB],
      rfl, rfl, by decide, by decide⟩

/-- The dep refs of a fully annotated parameter list. -/
def extractRefs (params : List (String × Option Ref)) : List (String × Ref) :=
  params.filterMap (fun pr => pr.2.map (fun r => (pr.1, r)))

theorem getDepRefs_of_all_some (params : List (String × Option Ref))
    (h : params.all (fun pr => pr.2.isSome) = true) :
    getDepRefsFromSignature params = .ok (extractRefs params) := by
  induction params with
  | nil => rfl
  | cons pr rest ih =>
    rw [List.all_cons, Bool.and_eq_true] at h
    cases hpr : pr.2 with
    | none => rw [hpr] at h; cases h.1
    | some r =>
      unfold getDepRefsFromSignature
      rw [hpr, ih h.2]
      unfold extractRefs
      rw [List.filterMap_cons, hpr]
      rfl

theorem checkDepScopes_ok_iff (ds : String) (imports : List String)
    (deps : List (String × Ref)) :
    (checkDepScopes ds imports deps = .ok () ↔
      ∀ d ∈ deps,
        (scopeOfRef ds d.2 == ds || imports.contains (scopeOfRef ds d.2)) = true) ∧
    (checkDepScopes ds imports deps ≠ .ok () →
      ∃ nm, checkDepScopes ds imports deps = .error (.scopeNotImported nm)) := by
  induction deps with
  | nil => exact ⟨by simp [checkDepScopes], fun h => absurd rfl h⟩
  | cons d rest ih =>
    unfold checkDepScopes
    by_cases hd : (scopeOfRef ds d.2 != ds && !(imports.contains (scopeOfRef ds d.2))) = true
    · rw [if_pos hd]
      rw [Bool.and_eq_true, bne_iff_ne, Bool.not_eq_true'] at hd
      constructor
      · constructor
        · intro h
          cases h
        · intro h
          have h2 := h d (List.mem_cons_self d rest)
          rw [Bool.or_eq_true, beq_iff_eq] at h2
          rcases h2 with h2 | h2
          · exact absurd h2 hd.1
          · rw [hd.2] at h2
            cases h2
      · intro _
        exact ⟨d.1, rfl⟩
    · rw [if_neg hd]
      rw [Bool.and_eq_true, not_and_or, bne_iff_ne, Bool.not_eq_true', Bool.not_eq_false] at hd
      constructor
      · rw [ih.1]
        constructor
        · intro h d2 hd2
          rcases List.mem_cons.mp hd2 with h2 | h2
          · subst h2
            rw [Bool.or_eq_true, beq_iff_eq]
            rcases hd with hd | hd
            · left
              by_contra hne
              exact hd hne
            · right
              exact hd
          · exact h d2 h2
        · intro h d2 hd2
          exact h d2 (List.mem_cons_of_mem d hd2)
      · exact ih.2

theorem refScopesValid_iff_extract (ds : String) (imports : List String)
    (params : List (String × Option Ref)) :
    refScopesValid ds imports params = true ↔
      ∀ d ∈ extractRefs params,
        (scopeOfRef ds d.2 == ds || imports.contains (scopeOfRef ds d.2)) = true := by
  induction params with
  | nil => simp [refScopesValid, extractRefs]
  | cons pr rest ih =>
    unfold refScopesValid at *
    unfold extractRefs at *
    rw [List.all_cons, Bool.and_eq_true, List.filterMap_cons]
    cases hpr : pr.2 with
    | none =>
      rw [ih]
      simp
    | some r =>
      rw [ih]
      constructor
      · rintro ⟨h1, h2⟩ d hd
        rcases List.mem_cons.mp hd with h3 | h3
        · subst h3
          exact h1
        · exact h2 d h3
      · intro h
        exact ⟨h (pr.1, r) (List.mem_cons_self _ _), fun d hd => h d (List.mem_cons_of_mem _ hd)⟩

theorem mem_extractRefs (params : List (String × Option Ref)) (d : String × Ref)
    (hd : d ∈ extractRefs params) : ∃ pr ∈ params, pr.2 = some d.2 := by
  induction params with
  | nil => cases hd
  | cons pr rest ih =>
    unfold extractRefs at hd
    rw [List.filterMap_cons] at hd
    cases hpr : pr.2 with
    | none =>
      rw [hpr] at hd
      obtain ⟨pr2, hmem, h2⟩ := ih hd
      exact ⟨pr2, List.mem_cons_of_mem _ hmem, h2⟩
    | some r =>
      rw [hpr] at hd
      rcases List.mem_cons.mp hd with h2 | h2
      · subst h2
        exact ⟨pr, List.mem_cons_self _ _, hpr⟩
      · obtain ⟨pr2, hmem, h3⟩ := ih h2
        exact ⟨pr2, List.mem_cons_of_mem _ hmem, h3⟩

theorem resolveDepPpaths_ok (ds : String) (deps : List (String × Ref))
    (h : ∀ d ∈ deps, (parsePath d.2.path).isOk = true) :
    ∃ ps, resolveDepPpaths ds deps = .ok ps := by
  induction deps with
  | nil => exact ⟨[], rfl⟩
  | cons d rest ih =>
    have hd := h d (List.mem_cons_self d rest)
    unfold resolveDepPpaths
    unfold refToProjectPath
    cases hp : parsePath d.2.path with
    | error e => rw [hp] at hd; cases hd
    | ok tp =>
      obtain ⟨ps, hps⟩ := ih (fun d2 hd2 => h d2 (List.mem_cons_of_mem d hd2))
      rw [hps]
      exact ⟨(d.1, ⟨scopeOfRef ds d.2, tp⟩) :: ps, rfl⟩

/-- C8: assuming the registration's other checks pass — every parameter
carries a `Ref` annotation, every reference's raw path parses, and (for a
calc) the return annotation is a class — registration of a calc or verif
succeeds if and only if every reference resolves to the owner's default
scope or to an imported scope, and otherwise it fails precisely with the
scope-not-imported error. -/
theorem c8_reference_scope_validity (ds : String) (imports : List String)
    (params : List (String × Option Ref)) (ret : Option Ty)
    (h1 : params.all (fun pr => pr.2.isSome) = true)
    (h2 : ∀ pr ∈ params, ∀ r, pr.2 = some r → (parsePath r.path).isOk = true)
    (h3 : ∃ t, ret = some t ∧ tyIsClass t = true) :
    ((calculationInit ds imports params ret).isOk = true ↔
      refScopesValid ds imports params = true) ∧
    ((verificationInit ds imports params ret).isOk = true ↔
      refScopesValid ds imports params = true) ∧
    (refScopesValid ds imports params = false →
      ∃ d, calculationInit ds imports params ret = .error (.scopeNotImported d) ∧
        verificationInit ds imports params ret = .error (.scopeNotImported d)) := by
  have hrefs := getDepRefs_of_all_some params h1
  have hparse : ∀ d ∈ extractRefs params, (parsePath d.2.path).isOk = true := by
    intro d hd
    obtain ⟨pr, hmem, hpr⟩ := mem_extractRefs params d hd
    exact h2 pr hmem d.2 hpr
  obtain ⟨t, hret, htcls⟩ := h3
  unfold calculationInit verificationInit
  rw [hrefs]
  dsimp only
  cases hc : checkDepScopes ds imports (extractRefs params) with
  | ok u =>
    cases u
    dsimp only
    have hvalid : refScopesValid ds imports params = true := by
      rw [refScopesValid_iff_extract]
      exact ((checkDepScopes_ok_iff ds imports (extractRefs params)).1).mp hc
    obtain ⟨ps, hps⟩ := resolveDepPpaths_ok ds (extractRefs params) hparse
    rw [hps]
    dsimp only
    have hretok : getReturnTypeFromSignature ret = .ok t := by
      rw [hret]
      show (if tyIsClass t = true then Except.ok t else Except.error RegErr.returnNotType) =
        Except.ok t
      rw [htcls]
      simp
    rw [hretok]
    dsimp only
    refine ⟨by rw [hvalid]; exact ⟨(fun _ => rfl), (fun _ => rfl)⟩,
      by rw [hvalid]; exact ⟨(fun _ => rfl), (fun _ => rfl)⟩, ?_⟩
    intro hfalse
    rw [hvalid] at hfalse
    cases hfalse
  | error e =>
    dsimp only
    have hne : checkDepScopes ds imports (extractRefs params) ≠ .ok () := by
      rw [hc]
      intro h
      cases h
    obtain ⟨nm, hnm⟩ := (checkDepScopes_ok_iff ds imports (extractRefs params)).2 hne
    rw [hc] at hnm
    injection hnm with hnm
    subst hnm
    have hinvalid : refScopesValid ds imports params = false := by
      by_contra hcon
      rw [Bool.not_eq_false] at hcon
      rw [refScopesValid_iff_extract] at hcon
      have := ((checkDepScopes_ok_iff ds imports (extractRefs params)).1).mpr hcon
      exact hne this
    rw [hinvalid]
    exact ⟨⟨(fun h => by cases h), (fun h => by cases h)⟩,
      ⟨(fun h => by cases h), (fun h => by cases h)⟩,
      (fun _ => ⟨nm, rfl, rfl⟩)⟩

/-- C8 (witness): `c8_reference_scope_validity` applied to a calc with one
in-scope reference and one imported cross-scope reference. -/
theorem c8_reference_scope_validity_witness :
    (calculationInit "Thermal" ["Power"]
        [("x", some ⟨"$.sub", none⟩), ("h", some ⟨"@solar_heat", some "Power"⟩)]
        (some (Ty.scalarCls "float"))).isOk = true := by
  exact (c8_reference_scope_validity "Thermal" ["Power"]
    [("x", some ⟨"$.sub", none⟩), ("h", some ⟨"@solar_heat", some "Power"⟩)]
    (some (Ty.scalarCls "float"))
    (by decide) (by decide) ⟨Ty.scalarCls "float", rfl, rfl⟩).1.mpr (by decide)

theorem foldl_partStr_data (ps : List Part) (acc : String) :
    (ps.foldl (fun a part => a ++ partStr part) acc).data = acc.data ++ partsChars ps := by
  induction ps generalizing acc with
  | nil => simp [partsChars]
  | cons p rest ih =>
    rw [List.foldl_cons, ih]
    rw [String.data_append]
    unfold partsChars
    rw [List.map_cons, List.foldr_cons]
    rw [List.append_assoc]

theorem pathStr_data (p : TypedPath) :
    (pathStr p).data = (pathRoot p).data ++ partsChars (pathParts p) :=
  foldl_partStr_data (pathParts p) (pathRoot p)

theorem partsChars_attr (n : String) (rest : List Part) :
    partsChars (Part.attr n :: rest) = '.' :: (n.data ++ partsChars rest) := by
  unfold partsChars
  rw [List.map_cons, List.foldr_cons]
  show (("." ++ n)).data ++ _ = _
  rw [String.data_append]
  rfl

theorem partsChars_item (k : String) (rest : List Part) :
    partsChars (Part.item (.s k) :: rest) = '[' :: (k.data ++ (']' :: partsChars rest)) := by
  unfold partsChars
  rw [List.map_cons, List.foldr_cons]
  show (("[" ++ itemKeyStr (.s k) ++ "]")).data ++ _ = _
  rw [String.data_append, String.data_append]
  show ('[' :: k.data ++ [']']) ++ _ = _
  simp

theorem partsChars_head (ps : List Part) :
    match partsChars ps with
    | [] => ps = []
    | c :: _ => isStopChar c = true := by
  cases ps with
  | nil => exact rfl
  | cons p rest =>
    cases p with
    | attr n =>
      rw [partsChars_attr]
      rfl
    | item k =>
      show match partsChars (Part.item k :: rest) with
        | [] => Part.item k :: rest = []
        | c :: _ => isStopChar c = true
      unfold partsChars
      rw [List.map_cons, List.foldr_cons]
      show match (("[" ++ itemKeyStr k ++ "]")).data ++ partsChars rest with
        | [] => Part.item k :: rest = []
        | c :: _ => isStopChar c = true
      rw [String.data_append, String.data_append]
      rfl

theorem takeWhile_append_of_all (p : Char → Bool) (l1 l2 : List Char)
    (h1 : ∀ c ∈ l1, p c = true)
    (h2 : match l2 with | [] => True | c :: _ => p c = false) :
    (l1 ++ l2).takeWhile p = l1 ∧ (l1 ++ l2).dropWhile p = l2 := by
  induction l1 with
  | nil =>
    rw [List.nil_append]
    cases l2 with
    | nil => exact ⟨rfl, rfl⟩
    | cons c tl =>
      have h2b : p c = false := h2
      have hc : ¬p c = true := by
        intro hcon
        rw [hcon] at h2b
        cases h2b
      exact ⟨List.takeWhile_cons_of_neg hc, List.dropWhile_cons_of_neg hc⟩
  | cons a l1 ih =>
    have ha : p a = true := h1 a (List.mem_cons_self _ _)
    have hrest := ih (fun c hc => h1 c (List.mem_cons_of_mem _ hc))
    rw [List.cons_append]
    exact ⟨by rw [List.takeWhile_cons_of_pos ha, hrest.1],
      by rw [List.dropWhile_cons_of_pos ha]; exact hrest.2⟩

theorem parsePartsAux_nil (fuel : Nat) : parsePartsAux fuel [] = .ok [] := by
  cases fuel <;> rfl

theorem parsePartsAux_encode (ps : List Part) (h : ps.all chkPart = true) :
    ∀ fuel, (partsChars ps).length ≤ fuel → parsePartsAux fuel (partsChars ps) = .ok ps := by
  induction ps with
  | nil =>
    intro fuel _
    exact parsePartsAux_nil fuel
  | cons p rest ih =>
    rw [List.all_cons, Bool.and_eq_true] at h
    intro fuel hfuel
    cases p with
    | attr n =>
      rw [partsChars_attr] at hfuel ⊢
      cases fuel with
      | zero => simp at hfuel
      | succ f =>
        have hname : ∀ c ∈ n.data, (fun ch => !isStopChar ch) c = true := by
          intro c hc
          have h2 := h.1
          unfold chkPart chkName at h2
          rw [List.all_eq_true] at h2
          exact h2 c hc
        have hsep :
            match partsChars rest with
            | [] => True
            | c :: _ => (fun ch => !isStopChar ch) c = false := by
          have h3 := partsChars_head rest
          cases hpc : partsChars rest with
          | nil => exact trivial
          | cons c tl =>
            rw [hpc] at h3
            show (!isStopChar c) = false
            rw [h3]
            rfl
        have hsplit := takeWhile_append_of_all (fun ch => !isStopChar ch) n.data
          (partsChars rest) hname hsep
        show (if ('.' == '.') = true then _ else _) = _
        rw [if_pos (show ('.' == '.') = true by decide)]
        dsimp only
        rw [hsplit.1, hsplit.2]
        rw [ih h.2 f (by simp at hfuel; omega)]
        rfl
    | item ik =>
      cases ik with
      | t ks =>
        have h2 := h.1
        unfold chkPart at h2
        cases h2
      | s k =>
        rw [partsChars_item] at hfuel ⊢
        cases fuel with
        | zero => simp at hfuel
        | succ f =>
          have h2 := h.1
          unfold chkPart chkKey at h2
          rw [Bool.and_eq_true] at h2
          have hkey : ∀ c ∈ k.data, (fun ch => ch != ']') c = true := by
            intro c hc
            have h3 := h2.1
            rw [List.all_eq_true] at h3
            have h4 := h3 c hc
            rw [Bool.and_eq_true] at h4
            show (c != ']') = true
            rw [bne_iff_ne]
            intro hcon
            subst hcon
            rw [Bool.not_eq_true'] at h4
            have h5 := h4.1
            simp at h5
          have hsep :
              match (']' :: partsChars rest) with
              | [] => True
              | c :: _ => (fun ch => ch != ']') c = false := by
            show (']' != ']') = false
            simp
          have hsplit := takeWhile_append_of_all (fun ch => ch != ']') k.data
            (']' :: partsChars rest) hkey hsep
          show (if ('[' == '.') = true then _
            else if ('[' == '[') = true then _ else _) = _
          rw [if_neg (show ¬(('[' == '.') = true) by decide),
            if_pos (show ('[' == '[') = true by decide)]
          dsimp only
          rw [hsplit.1, hsplit.2]
          rw [List.drop_one, List.tail_cons]
          have hnocomma : k.data.contains ',' = false := by
            rw [List.contains_eq_any_beq]
            rw [List.any_eq_false]
            intro c hc
            have h3 := h2.1
            rw [List.all_eq_true] at h3
            have h4 := h3 c hc
            rw [Bool.and_eq_true] at h4
            have h5 := h4.2
            rw [Bool.not_eq_true'] at h5
            rw [Bool.beq_comm, Bool.not_eq_true]
            exact h5
          unfold mkItemPart
          rw [hnocomma]
          rw [if_neg (show ¬(false = true) by decide)]
          have hstripk : stripChars k.data = k.data := eq_of_beq h2.2
          rw [hstripk]
          rw [ih h.2 f (by simp at hfuel; omega)]
          rfl

theorem pathParseRaw_canonical (root : String) (ps : List Part)
    (hroot : ∀ c ∈ root.data, isStopChar c = false)
    (hps : ps.all chkPart = true)
    (s : String)
    (hdata : s.data = root.data ++ partsChars ps)
    (hstrip : stripChars s.data = s.data) :
    pathParseRaw s = .ok (root, ps) := by
  unfold pathParseRaw
  rw [hstrip, hdata]
  cases hpc : partsChars ps with
  | nil =>
    have hps0 : ps = [] := by
      have h2 := partsChars_head ps
      rw [hpc] at h2
      exact h2
    subst hps0
    rw [List.append_nil]
    have hsplit : rootSplit root.data = none := by
      unfold rootSplit
      rw [if_neg]
      rw [List.any_eq_true]
      rintro ⟨c, hc, hstop⟩
      rw [hroot c hc] at hstop
      cases hstop
    dsimp only
    rw [hsplit]
  | cons c tl =>
    have hstop : isStopChar c = true := by
      have h2 := partsChars_head ps
      rw [hpc] at h2
      exact h2
    have hany : (root.data ++ c :: tl).any isStopChar = true := by
      rw [List.any_append]
      rw [Bool.or_eq_true]
      right
      rw [List.any_cons, hstop]
      rfl
    have hsplit := takeWhile_append_of_all (fun ch => !isStopChar ch) root.data (c :: tl)
      (fun c2 hc2 => by rw [Bool.not_eq_true', hroot c2 hc2])
      (by show (!isStopChar c) = false; rw [hstop]; rfl)
    have hroots : rootSplit (root.data ++ c :: tl) = some (root.data, c :: tl) := by
      unfold rootSplit
      rw [if_pos hany, hsplit.1, hsplit.2]
    dsimp only
    rw [hroots]
    dsimp only
    have henc := parsePartsAux_encode ps hps (partsChars ps).length (Nat.le_refl _)
    rw [hpc] at henc
    rw [henc]
    rfl

/-- C4 (amended): round-trip holds on canonical path strings whose item
parts carry SINGLE keys: for every canonical typed path, parsing its
stringification returns it, and stringifying the parse returns the string
unchanged.  (For tuple keys the stringification is not the inverse; see
the counterexample.) -/
theorem c4_path_roundtrip (p : TypedPath) (h : canonicalPath p = true) :
    parsePath (pathStr p) = .ok p ∧
    (parsePath (pathStr p)).map pathStr = .ok (pathStr p) := by
  have hmain : parsePath (pathStr p) = .ok p := by
    unfold canonicalPath at h
    rw [Bool.and_eq_true, Bool.and_eq_true] at h
    obtain ⟨⟨hparts, hkind⟩, hstripb⟩ := h
    have hstrip : stripChars (pathStr p).data = (pathStr p).data := eq_of_beq hstripb
    have hpy : pyStrip (pathStr p) = pathStr p := by
      show String.mk (stripChars (pathStr p).data) = pathStr p
      rw [hstrip]
    have hdecomp := pathStr_data p
    unfold parsePath
    rw [hpy]
    cases p with
    | modelP ps =>
      have hdata : (pathStr (TypedPath.modelP ps)).data = "$".data ++ partsChars ps := hdecomp
      have hsw : strStartsWith1 (pathStr (TypedPath.modelP ps)) '$' = true := by
        unfold strStartsWith1
        rw [hdata]
        rfl
      rw [if_pos hsw]
      rw [pathParseRaw_canonical "$" ps (by decide) hparts _ hdata hstrip]
      rfl
    | calcP r ps =>
      have hkindc : chkRoot r '@' = true := hkind
      unfold chkRoot at hkindc
      cases hr : r.data with
      | nil => rw [hr] at hkindc; cases hkindc
      | cons c rs =>
        rw [hr] at hkindc
        rw [Bool.and_eq_true, beq_iff_eq] at hkindc
        obtain ⟨hc, hall⟩ := hkindc
        subst hc
        have hdata : (pathStr (TypedPath.calcP r ps)).data = r.data ++ partsChars ps := hdecomp
        have hsw1 : strStartsWith1 (pathStr (TypedPath.calcP r ps)) '$' = false := by
          unfold strStartsWith1
          rw [hdata, hr]
          rfl
        have hsw2 : strStartsWith1 (pathStr (TypedPath.calcP r ps)) '@' = true := by
          unfold strStartsWith1
          rw [hdata, hr]
          rfl
        rw [if_neg (by rw [hsw1]; exact (fun h2 => by cases h2)), if_pos hsw2]
        rw [pathParseRaw_canonical r ps
          (by
            intro c2 hc2
            rw [hr] at hc2
            rw [List.all_eq_true] at hall
            have h3 := hall c2 hc2
            rw [Bool.not_eq_true'] at h3
            exact h3)
          hparts _ hdata hstrip]
        show mkCalcPath r ps = .ok (TypedPath.calcP r ps)
        unfold mkCalcPath
        rw [if_pos (by unfold strStartsWith1; rw [hr]; rfl)]
    | verifP r =>
      have hkindv : chkRoot r '?' = true := hkind
      unfold chkRoot at hkindv
      cases hr : r.data with
      | nil => rw [hr] at hkindv; cases hkindv
      | cons c rs =>
        rw [hr] at hkindv
        rw [Bool.and_eq_true, beq_iff_eq] at hkindv
        obtain ⟨hc, hall⟩ := hkindv
        subst hc
        have hdata : (pathStr (TypedPath.verifP r)).data = r.data ++ partsChars [] := hdecomp
        have hsw1 : strStartsWith1 (pathStr (TypedPath.verifP r)) '$' = false := by
          unfold strStartsWith1
          rw [hdata, hr]
          rfl
        have hsw2 : strStartsWith1 (pathStr (TypedPath.verifP r)) '@' = false := by
          unfold strStartsWith1
          rw [hdata, hr]
          rfl
        have hsw3 : strStartsWith1 (pathStr (TypedPath.verifP r)) '?' = true := by
          unfold strStartsWith1
          rw [hdata, hr]
          rfl
        rw [if_neg (by rw [hsw1]; exact (fun h2 => by cases h2)),
          if_neg (by rw [hsw2]; exact (fun h2 => by cases h2)), if_pos hsw3]
        rw [pathParseRaw_canonical r []
          (by
            intro c2 hc2
            rw [hr] at hc2
            rw [List.all_eq_true] at hall
            have h3 := hall c2 hc2
            rw [Bool.not_eq_true'] at h3
            exact h3)
          rfl _ hdata hstrip]
        show mkVerifPath r [] = .ok (TypedPath.verifP r)
        unfold mkVerifPath
        rw [if_neg (by
          rw [show strStartsWith1 r '?' = true by unfold strStartsWith1; rw [hr]; rfl]
          exact (fun h2 => by cases h2))]
        rfl
  exact ⟨hmain, by rw [hmain]; rfl⟩

/-- C4 (counterexample): parsing `"$.t[nominal, option_b]"` yields an item
part with the tuple key `("nominal", "option_b")`, but `Path.__str__`
interpolates the tuple with Python's tuple rendering, producing
`"$.t[('nominal', 'option_b')]"` — not the claimed
`"$.t[nominal, option_b]"`. -/
theorem c4_counterexample :
    (parsePath "$.t[nominal, option_b]").map pathStr = .ok "$.t[('nominal', 'option_b')]" ∧
    (parsePath "$.t[nominal, option_b]").map pathStr ≠ .ok "$.t[nominal, option_b]" := by
  constructor
  · rfl
  · intro h
    rw [show (parsePath "$.t[nominal, option_b]").map pathStr =
      Except.ok "$.t[('nominal', 'option_b')]" from rfl] at h
    injection h with h
    exact absurd h (by decide)

/-- C4 (witness): `c4_path_roundtrip` applied to the concrete canonical
path `$.t[nominal]`. -/
theorem c4_path_roundtrip_witness :
    (parsePath "$.t[nominal]").map pathStr = .ok "$.t[nominal]" := by
  have h := c4_path_roundtrip
    (TypedPath.modelP [Part.attr "t", Part.item (.s "nominal")]) (by decide)
  exact h.2

theorem iterLeafFields_scalar (fields : Fields)
    (hscalar : fieldsAllScalarLeaf fields = true) (cur : List Part) :
    iterLeafFields fields cur =
      .ok ((fieldNames fields).map (fun m => cur ++ [Part.attr m])) :=
  match fields, hscalar with
  | .nil, _ => rfl
  | .cons n t rest, h => by
    unfold fieldsAllScalarLeaf at h
    rw [Bool.and_eq_true] at h
    have hrec := iterLeafFields_scalar rest h.2 cur
    cases t with
    | scalarCls nm =>
      rw [show iterLeafFields (Fields.cons n (Ty.scalarCls nm) rest) cur =
        (match iterLeafFields rest cur with
         | Except.error e => Except.error e
         | Except.ok more => Except.ok ((cur ++ [Part.attr n]) :: more)) from rfl]
      rw [hrec]
      rfl
    | enumCls e =>
      rw [show iterLeafFields (Fields.cons n (Ty.enumCls e) rest) cur =
        (match iterLeafFields rest cur with
         | Except.error e2 => Except.error e2
         | Except.ok more => Except.ok ((cur ++ [Part.attr n]) :: more)) from rfl]
      rw [hrec]
      rfl
    | noneTy => cases h.1
    | tableAlias a b => cases h.1
    | tableCls ks => cases h.1
    | modelCls nm fs => cases h.1

theorem valFieldsLookup_ofList_nodup (vals : List (String × Val)) (n : String) (vn : Val)
    (hnodup : (vals.map Prod.fst).Nodup) (hmem : (n, vn) ∈ vals) :
    valFieldsLookup (ValFields.ofList vals) n = some vn := by
  induction vals with
  | nil => cases hmem
  | cons e rest ih =>
    rw [List.map_cons, List.nodup_cons] at hnodup
    show valFieldsLookup (ValFields.cons e.1 e.2 (ValFields.ofList rest)) n = some vn
    unfold valFieldsLookup
    by_cases hmn : (e.1 == n) = true
    · rw [if_pos hmn]
      rw [beq_iff_eq] at hmn
      rcases List.mem_cons.mp hmem with h2 | h2
      · rw [← h2]
      · exact absurd (List.mem_map.mpr ⟨(n, vn), h2, hmn.symm⟩) hnodup.1
    · rw [if_neg hmn]
      rcases List.mem_cons.mp hmem with h2 | h2
      · exact absurd (by rw [beq_iff_eq]; exact (congrArg Prod.fst h2).symm) hmn
      · exact ih hnodup.2 h2

theorem getValue_single_attr (flds : ValFields) (m : String) (v : Val)
    (h : valFieldsLookup flds m = some v) :
    getValueByParts (Val.recV flds) [Part.attr m] = .ok v := by
  unfold getValueByParts
  rw [List.foldlM_cons]
  show (match valFieldsLookup flds m with
    | some v => Except.ok v
    | none => Except.error (EvalErr.attributeError m)).bind _ = Except.ok v
  rw [h]
  rfl

theorem mapM_extract (vals full : List (String × Val))
    (hnodup : (full.map Prod.fst).Nodup)
    (hsub : ∀ e ∈ vals, e ∈ full) :
    ((vals.map (fun e => [Part.attr e.1])).mapM
        (fun parts => (getValueByParts (Val.recV (ValFields.ofList full)) parts).map
          (fun v => (parts, v))))
      = .ok (vals.map (fun e => ([Part.attr e.1], e.2))) := by
  induction vals with
  | nil => rfl
  | cons e rest ih =>
    rw [List.map_cons, List.mapM_cons]
    rw [getValue_single_attr (ValFields.ofList full) e.1 e.2
      (valFieldsLookup_ofList_nodup full e.1 e.2 hnodup (hsub e (List.mem_cons_self _ _)))]
    rw [ih (fun e2 he2 => hsub e2 (List.mem_cons_of_mem _ he2))]
    rfl

theorem filter_head_attr (full : List (String × Val)) (n : String) (vn : Val)
    (hnodup : (full.map Prod.fst).Nodup) (hmem : (n, vn) ∈ full) :
    matchingLeafParts n (full.map (fun e => ([Part.attr e.1], e.2))) =
      [([Part.attr n], vn)] := by
  unfold matchingLeafParts
  induction full with
  | nil => cases hmem
  | cons e rest ih =>
    rw [List.map_cons, List.filter_cons]
    rw [List.map_cons, List.nodup_cons] at hnodup
    show (if (e.1 == n) = true then _ else _) = _
    by_cases hmn : (e.1 == n) = true
    · rw [if_pos hmn]
      rw [beq_iff_eq] at hmn
      have hvn : vn = e.2 := by
        rcases List.mem_cons.mp hmem with h2 | h2
        · exact congrArg Prod.snd h2
        · exact absurd (List.mem_map.mpr ⟨(n, vn), h2, hmn.symm⟩) hnodup.1
      have hrest : (rest.map (fun e => ([Part.attr e.1], e.2))).filter
          (fun lv =>
            match lv.1 with
            | Part.attr m :: _ => m == n
            | _ => false) = ([] : List (List Part × Val)) := by
        rw [List.filter_eq_nil_iff]
        intro lv hlv
        obtain ⟨e2, he2, hlv2⟩ := List.mem_map.mp hlv
        rw [← hlv2]
        show ¬(e2.1 == n) = true
        rw [beq_iff_eq]
        intro hcon
        exact absurd (List.mem_map.mpr ⟨e2, he2, hcon.trans hmn.symm⟩) hnodup.1
      rw [hrest, hmn, hvn]
    · rw [if_neg hmn]
      rcases List.mem_cons.mp hmem with h2 | h2
      · exact absurd (by rw [beq_iff_eq]; exact (congrArg Prod.fst h2).symm) hmn
      · exact ih hnodup.2 h2

theorem hydrateFields_scalar (g : Fields) (valsG full : List (String × Val))
    (hscalar : fieldsAllScalarLeaf g = true)
    (hnames : fieldNames g = valsG.map Prod.fst)
    (hsub : ∀ e ∈ valsG, e ∈ full)
    (hnodup : (full.map Prod.fst).Nodup) :
    hydrateFieldVals g (full.map (fun e => ([Part.attr e.1], e.2))) = .ok valsG :=
  match g, valsG, hnames with
  | .nil, [], _ => rfl
  | .nil, _ :: _, hnames => nomatch hnames
  | .cons _ _ _, [], hnames => nomatch hnames
  | .cons n t rest, ev :: vrest, hnames => by
    have hnames2 : n :: fieldNames rest = ev.1 :: vrest.map Prod.fst := by
      rw [← List.map_cons]
      exact hnames
    injection hnames2 with hn hrest
    unfold fieldsAllScalarLeaf at hscalar
    rw [Bool.and_eq_true] at hscalar
    have hmem : (n, ev.2) ∈ full := by
      have h2 := hsub ev (List.mem_cons_self _ _)
      rw [show ev = (n, ev.2) from Prod.ext hn.symm rfl] at h2
      exact h2
    have hfilter := filter_head_attr full n ev.2 hnodup hmem
    have hone : hydrateFieldScalarOrTable n t (full.map (fun e => ([Part.attr e.1], e.2))) =
        .ok ev.2 := by
      cases t with
      | scalarCls nm =>
        unfold hydrateFieldScalarOrTable
        rw [hfilter]
        rfl
      | enumCls e =>
        unfold hydrateFieldScalarOrTable
        rw [hfilter]
        rfl
      | noneTy => cases hscalar.1
      | tableAlias a b => cases hscalar.1
      | tableCls ks => cases hscalar.1
      | modelCls nm fs => cases hscalar.1
    have hrec := hydrateFields_scalar rest vrest full hscalar.2 hrest
      (fun e2 he2 => hsub e2 (List.mem_cons_of_mem _ he2)) hnodup
    have hstep : hydrateFieldVals (Fields.cons n t rest)
          (full.map (fun e => ([Part.attr e.1], e.2))) =
        exceptFieldCons n
          (hydrateFieldScalarOrTable n t (full.map (fun e => ([Part.attr e.1], e.2))))
          (hydrateFieldVals rest (full.map (fun e => ([Part.attr e.1], e.2)))) := by
      cases t with
      | scalarCls nm => rfl
      | enumCls e => rfl
      | noneTy => cases hscalar.1
      | tableAlias a b => cases hscalar.1
      | tableCls ks => cases hscalar.1
      | modelCls nm fs => cases hscalar.1
    rw [hstep, hone, hrec]
    unfold exceptFieldCons
    rw [show ev = (n, ev.2) from Prod.ext hn.symm rfl]

/-- C10: on flat records — every field a scalar leaf class — leaf
extraction and leaf hydration are mutually inverse: hydrating the record
type from the mapping that sends each leaf part-list to the value extracted
from a conforming instance at that part-list reconstructs the instance. -/
theorem c10_extract_hydrate_roundtrip (name : String) (fields : Fields)
    (vals : List (String × Val))
    (hscalar : fieldsAllScalarLeaf fields = true)
    (hnames : fieldNames fields = vals.map Prod.fst)
    (hnodup : (vals.map Prod.fst).Nodup) :
    (((iterLeafPathParts (Ty.modelCls name fields) []).bind
        (fun leaves => leaves.mapM
          (fun parts => (getValueByParts (Val.recV (ValFields.ofList vals)) parts).map
            (fun v => (parts, v))))).bind
      (fun lvs => hydrateValueByLeafValues (Ty.modelCls name fields) lvs))
      = .ok (Val.recV (ValFields.ofList vals)) := by
  rw [show iterLeafPathParts (Ty.modelCls name fields) [] = iterLeafFields fields [] from rfl]
  rw [iterLeafFields_scalar fields hscalar []]
  simp only [List.nil_append]
  rw [hnames]
  rw [show (vals.map Prod.fst).map (fun m => [Part.attr m]) =
    vals.map (fun e => [Part.attr e.1]) from by rw [List.map_map]; rfl]
  show ((vals.map (fun e => [Part.attr e.1])).mapM
      (fun parts => (getValueByParts (Val.recV (ValFields.ofList vals)) parts).map
        (fun v => (parts, v)))).bind
      (fun lvs => hydrateValueByLeafValues (Ty.modelCls name fields) lvs) = _
  rw [mapM_extract vals vals hnodup (fun e he => he)]
  show hydrateValueByLeafValues (Ty.modelCls name fields)
    (vals.map (fun e => ([Part.attr e.1], e.2))) = _
  unfold hydrateValueByLeafValues
  rw [hydrateFields_scalar fields vals vals hscalar hnames (fun e he => he) hnodup]

/-- C10 (witness): `c10_extract_hydrate_roundtrip` applied to the concrete
flat record `Sub(a=3, b=4)`. -/
theorem c10_extract_hydrate_roundtrip_witness :
    (((iterLeafPathParts subRecordTy []).bind
        (fun leaves => leaves.mapM
          (fun parts => (getValueByParts subRecordVal parts).map (fun v => (parts, v))))).bind
      (fun lvs => hydrateValueByLeafValues subRecordTy lvs)) = .ok subRecordVal := by
  exact c10_extract_hydrate_roundtrip "Sub"
    (.cons "a" (.scalarCls "float") (.cons "b" (.scalarCls "float") .nil))
    [("a", Val.num 3), ("b", Val.num 4)] (by decide) (by decide) (by decide)

end Veriq
